import Mathlib

/-!
Verification of the IC-7300 memory-manager core: the CI-V byte-level codec
(frequency BCD encoding, frame serialization and parsing), the half-duplex
transport reader, the single-slot channel transaction engine, and the
group-aware slot allocator with its bulk upload.  Python sources are embedded
shallowly: dictionaries ordered by insertion become association lists,
byte strings become lists of naturals, serial exchanges become oracles that
map an exchange index to the received byte buffer, and wall-clock timeouts
become exhaustion of the incoming byte stream.
-/

/-! # BCD codec (civ_protocol.py, freq_to_bcd / bcd_to_freq) -/

/-- One loop iteration set of the Python encoder: five bytes, each packing
the next two decimal digits of the frequency, least significant pair first.
Mirrors: for 5 iterations, append (freq mod 10) or ((freq div 10 mod 10) shl 4)
then divide freq by 100. -/
def freqToBcdAux : Nat → Nat → List Nat
  | _, 0 => []
  | freq, n + 1 => ((freq % 10) ||| ((freq / 10 % 10) <<< 4)) :: freqToBcdAux (freq / 100) n

/-- Convert frequency in Hz to BCD format (5 bytes, LSB first). -/
def freq_to_bcd (frequency : Nat) : List Nat := freqToBcdAux frequency 5

/-- The Python decoder loop: running multiplier starts at 1; each byte adds
low nibble times the multiplier, then high nibble times ten times the
multiplier, and the multiplier grows by 100 per byte. -/
def bcdToFreqAux : List Nat → Nat → Nat
  | [], _ => 0
  | b :: bs, multiplier =>
      (b &&& 0x0F) * multiplier + ((b >>> 4) &&& 0x0F) * (multiplier * 10) +
        bcdToFreqAux bs (multiplier * 100)

/-- Convert BCD format to frequency in Hz. -/
def bcd_to_freq (bcd_data : List Nat) : Nat := bcdToFreqAux bcd_data 1

theorem nibble_low_of_packed : ∀ a, a < 16 → ∀ b, b < 16 → (a ||| b <<< 4) &&& 0x0F = a := by
  decide

theorem nibble_high_of_packed :
    ∀ a, a < 16 → ∀ b, b < 16 → ((a ||| b <<< 4) >>> 4) &&& 0x0F = b := by
  decide

theorem nibble_shr_of_packed : ∀ a, a < 16 → ∀ b, b < 16 → (a ||| b <<< 4) >>> 4 = b := by
  decide

theorem bcdToFreqAux_freqToBcdAux (n : Nat) :
    ∀ f m, bcdToFreqAux (freqToBcdAux f n) m = (f % 100 ^ n) * m := by
  induction n with
  | zero => intro f m; simp [freqToBcdAux, bcdToFreqAux, Nat.mod_one]
  | succ n ih =>
      intro f m
      have h10a : f % 10 < 16 := lt_of_lt_of_le (Nat.mod_lt _ (by norm_num)) (by norm_num)
      have h10b : f / 10 % 10 < 16 := lt_of_lt_of_le (Nat.mod_lt _ (by norm_num)) (by norm_num)
      show ((f % 10 ||| (f / 10 % 10) <<< 4) &&& 0x0F) * m +
            (((f % 10 ||| (f / 10 % 10) <<< 4) >>> 4) &&& 0x0F) * (m * 10) +
            bcdToFreqAux (freqToBcdAux (f / 100) n) (m * 100) = (f % 100 ^ (n + 1)) * m
      rw [nibble_low_of_packed _ h10a _ h10b, nibble_high_of_packed _ h10a _ h10b, ih]
      have hsplit : f % (100 * 100 ^ n) = f % 100 + 100 * (f / 100 % 100 ^ n) := Nat.mod_mul
      have hsplit2 : f % 100 = f % 10 + 10 * (f / 10 % 10) := by
        have : f % (10 * 10) = f % 10 + 10 * (f / 10 % 10) := Nat.mod_mul
        simpa using this
      have hpow : (100 : Nat) ^ (n + 1) = 100 * 100 ^ n := by ring
      rw [hpow, hsplit, hsplit2]
      ring

theorem freqToBcdAux_length (n : Nat) : ∀ f, (freqToBcdAux f n).length = n := by
  induction n with
  | zero => intro f; simp [freqToBcdAux]
  | succ n ih => intro f; simp [freqToBcdAux, ih]

theorem freqToBcdAux_mem_shape (n : Nat) :
    ∀ f, ∀ b ∈ freqToBcdAux f n, ∃ g, b = g % 10 ||| (g / 10 % 10) <<< 4 := by
  induction n with
  | zero => intro f b hb; simp [freqToBcdAux] at hb
  | succ n ih =>
      intro f b hb
      rw [freqToBcdAux] at hb
      rcases List.mem_cons.mp hb with h | h
      · exact ⟨f, h⟩
      · exact ih (f / 100) b h

/-- C2: for every frequency f with 0 <= f < 10,000,000,000, decoding the
5-byte BCD encoding returns f exactly: bcd_to_freq (freq_to_bcd f) = f. -/
theorem bcd_roundtrip (f : Nat) (h : f < 10000000000) : bcd_to_freq (freq_to_bcd f) = f := by
  unfold bcd_to_freq freq_to_bcd
  rw [bcdToFreqAux_freqToBcdAux, Nat.mul_one]
  have hpow : (100 : Nat) ^ 5 = 10000000000 := by norm_num
  rw [hpow]
  exact Nat.mod_eq_of_lt h

theorem bcd_roundtrip_witness :
    14200000 < 10000000000 ∧ bcd_to_freq (freq_to_bcd 14200000) = 14200000 :=
  ⟨by norm_num, bcd_roundtrip 14200000 (by norm_num)⟩

/-- C10: the BCD codec is total on all naturals: freq_to_bcd always returns
exactly 5 bytes whose two nibbles are each at most 9, and decoding the
encoding of any f yields f reduced modulo ten to the tenth (silent
truncation of out-of-range input, never an error). -/
theorem bcd_total (f : Nat) :
    (freq_to_bcd f).length = 5 ∧
    (∀ b ∈ freq_to_bcd f, b &&& 0x0F ≤ 9 ∧ b >>> 4 ≤ 9) ∧
    bcd_to_freq (freq_to_bcd f) = f % 10000000000 := by
  refine ⟨freqToBcdAux_length 5 f, ?_, ?_⟩
  · intro b hb
    obtain ⟨g, rfl⟩ := freqToBcdAux_mem_shape 5 f b hb
    have h10a : g % 10 < 16 := lt_of_lt_of_le (Nat.mod_lt _ (by norm_num)) (by norm_num)
    have h10b : g / 10 % 10 < 16 := lt_of_lt_of_le (Nat.mod_lt _ (by norm_num)) (by norm_num)
    constructor
    · rw [nibble_low_of_packed _ h10a _ h10b]
      exact Nat.le_of_lt_succ (Nat.mod_lt _ (by norm_num))
    · rw [nibble_shr_of_packed _ h10a _ h10b]
      exact Nat.le_of_lt_succ (Nat.mod_lt _ (by norm_num))
  · unfold bcd_to_freq freq_to_bcd
    rw [bcdToFreqAux_freqToBcdAux, Nat.mul_one]
    norm_num

/-! # Frame codec (civ_protocol.py, CIVMessage) -/

/-- CI-V protocol preamble byte. -/
def CIV_PREAMBLE : Nat := 0xFE

/-- CI-V end-of-message byte. -/
def CIV_EOM : Nat := 0xFD

/-- CIVCommand.READ_NAME, numerically equal to CIVCommand.SET_NAME. -/
def READ_NAME : Nat := 0x1A

/-- CIVCommand.SET_NAME. -/
def SET_NAME : Nat := 0x1A

/-- Represents a CI-V protocol message. -/
structure CIVMessage where
  destination : Nat
  source : Nat
  command : Nat
  sub_command : Option Nat := none
  data : List Nat := []
deriving DecidableEq, Repr

/-- Convert message to bytes for transmission. -/
def CIVMessage.to_bytes (m : CIVMessage) : List Nat :=
  [CIV_PREAMBLE, CIV_PREAMBLE, m.destination, m.source, m.command] ++
    (match m.sub_command with
     | some sc => [sc]
     | none => []) ++
    m.data ++ [CIV_EOM]

/-- Parse a CI-V message from bytes.  The final byte check is the Python
index -1 access, and the payload is the slice from index 5 up to but
excluding the final byte. -/
def CIVMessage.from_bytes (data : List Nat) : Option CIVMessage :=
  if data.length < 6 then none
  else if ¬ (data.getD 0 0 = CIV_PREAMBLE ∧ data.getD 1 0 = CIV_PREAMBLE) then none
  else if data.getLast? ≠ some CIV_EOM then none
  else
    let destination := data.getD 2 0
    let source := data.getD 3 0
    let command := data.getD 4 0
    let payload := (data.drop 5).dropLast
    if payload.length > 0 ∧ (command = READ_NAME ∨ command = SET_NAME) then
      some { destination := destination, source := source, command := command,
             sub_command := some (payload.headD 0), data := payload.drop 1 }
    else
      some { destination := destination, source := source, command := command,
             sub_command := none, data := payload }

/-- C3: for every valid logical frame (sub-command present only for the
name/record 0x1A command family, and absent for that family only when the
payload is empty), parsing the serialized bytes returns an equal frame. -/
theorem frame_roundtrip (m : CIVMessage)
    (hsub : m.sub_command.isSome → m.command = READ_NAME)
    (hfam : m.command = READ_NAME → m.sub_command.isSome ∨ m.data = []) :
    CIVMessage.from_bytes m.to_bytes = some m := by
  obtain ⟨d, s, c, sub, dat⟩ := m
  cases sub with
  | some v =>
      have hc : c = READ_NAME := hsub (by simp)
      subst hc
      have hshape : CIVMessage.to_bytes
            { destination := d, source := s, command := READ_NAME,
              sub_command := some v, data := dat }
          = CIV_PREAMBLE :: CIV_PREAMBLE :: d :: s :: READ_NAME :: (v :: dat ++ [CIV_EOM]) := by
        simp [CIVMessage.to_bytes]
      have hlast : (CIV_PREAMBLE :: CIV_PREAMBLE :: d :: s :: READ_NAME ::
          (v :: dat ++ [CIV_EOM])).getLast? = some CIV_EOM := by
        rw [show CIV_PREAMBLE :: CIV_PREAMBLE :: d :: s :: READ_NAME :: (v :: dat ++ [CIV_EOM])
            = (CIV_PREAMBLE :: CIV_PREAMBLE :: d :: s :: READ_NAME :: v :: dat) ++ [CIV_EOM]
          from by simp]
        exact List.getLast?_concat _
      have hdl : (v :: dat ++ [CIV_EOM]).dropLast = v :: dat := by
        rw [show v :: dat ++ [CIV_EOM] = (v :: dat) ++ [CIV_EOM] from by simp]
        exact List.dropLast_concat
      rw [hshape]
      simp only [CIVMessage.from_bytes, List.getD]
      rw [show v :: dat ++ [CIV_EOM] = (v :: dat) ++ [CIV_EOM] from by simp] at *
      simp [hlast, List.getLast?_concat, List.dropLast_concat]
      have hsh2 : v :: (dat ++ [CIV_EOM]) = (v :: dat) ++ [CIV_EOM] := (List.cons_append _ _ _).symm
      refine ⟨?_, ?_, ?_⟩
      · rw [hsh2]; exact List.getLast?_concat _
      · rw [hsh2, List.dropLast_concat]; rfl
      · rw [hsh2, List.dropLast_concat]; rfl
  | none =>
      by_cases hc : c = READ_NAME
      · rcases hfam hc with h | hdat
        · simp at h
        · subst hc
          subst hdat
          simp [CIVMessage.to_bytes, CIVMessage.from_bytes, List.getD]
      · have hshape : CIVMessage.to_bytes
              { destination := d, source := s, command := c,
                sub_command := none, data := dat }
            = CIV_PREAMBLE :: CIV_PREAMBLE :: d :: s :: c :: (dat ++ [CIV_EOM]) := by
          simp [CIVMessage.to_bytes]
        have hlast : (CIV_PREAMBLE :: CIV_PREAMBLE :: d :: s :: c ::
            (dat ++ [CIV_EOM])).getLast? = some CIV_EOM := by
          rw [show CIV_PREAMBLE :: CIV_PREAMBLE :: d :: s :: c :: (dat ++ [CIV_EOM])
              = (CIV_PREAMBLE :: CIV_PREAMBLE :: d :: s :: c :: dat) ++ [CIV_EOM]
            from by simp]
          exact List.getLast?_concat _
        have hdl : (dat ++ [CIV_EOM]).dropLast = dat := List.dropLast_concat
        rw [hshape]
        simp [CIVMessage.from_bytes, hlast, hdl, List.getD, hc, READ_NAME, SET_NAME]
        intro _
        exact hc

theorem frame_roundtrip_witness :
    (CIVMessage.from_bytes (CIVMessage.to_bytes
        { destination := 0x94, source := 0xE0, command := 0x1A,
          sub_command := some 0x00, data := [0x00, 0x05] })
      = some { destination := 0x94, source := 0xE0, command := 0x1A,
               sub_command := some 0x00, data := [0x00, 0x05] }) :=
  frame_roundtrip _ (fun _ => rfl) (fun _ => Or.inl rfl)

/-! # Transport reader (civ_protocol.py, CIVProtocol._read_response) -/

/-- Position i of the buffer carries a two-byte preamble whose following
source-address byte (offset 3 from the preamble) equals the configured
radio address.  This is the hit test of the Python scan. -/
def scanHit (addr : Nat) (buf : List Nat) (i : Nat) : Bool :=
  buf[i]? == some CIV_PREAMBLE && buf[i + 1]? == some CIV_PREAMBLE && buf[i + 3]? == some addr

/-- The Python scan loop over i in range(len(buffer) - 5), returning the
first hit; the last argument counts the remaining iterations. -/
def scanFrom (addr : Nat) (buf : List Nat) : Nat → Nat → Option Nat
  | _, 0 => none
  | i, k + 1 => if scanHit addr buf i then some i else scanFrom addr buf (i + 1) k

/-- First preamble position addressed from the radio, scanning the whole
buffer as the Python for-loop does. -/
def scanBuffer (addr : Nat) (buf : List Nat) : Option Nat :=
  scanFrom addr buf 0 (buf.length - 5)

/-- bytearray.index(CIV_EOM, i): position of the first terminator byte at
or after index i, when one exists. -/
def indexFrom (buf : List Nat) (i : Nat) : Option Nat :=
  ((buf.drop i).findIdx? (fun b => b == CIV_EOM)).map (· + i)

/-- The candidate frame slice buffer[i : index(CIV_EOM, i) + 1]. -/
def frameSlice (buf : List Nat) (i : Nat) : Option (List Nat) :=
  (indexFrom buf i).map (fun e => (buf.drop i).take (e + 1 - i))

/-- One-shot description of a completed receive buffer: the frame at the
first matching preamble position, sliced up to the first terminator at or
after it and parsed by the frame codec; nothing when no position matches. -/
def respond (addr : Nat) (buf : List Nat) : Option CIVMessage :=
  match scanBuffer addr buf with
  | some i => (frameSlice buf i).bind CIVMessage.from_bytes
  | none => none

/-- The byte-accumulation loop of _read_response: bytes arrive one at a
time; whenever the arriving byte is the terminator and at least six bytes
are buffered, the scan runs and a hit is parsed and returned at once;
exhausting the incoming stream is the wall-clock timeout, yielding no
reply.  The buffer is retained between scans, exactly as in the source. -/
def readLoop (addr : Nat) : List Nat → List Nat → Option CIVMessage
  | _, [] => none
  | buffer, b :: rest =>
      let buf := buffer ++ [b]
      if b == CIV_EOM && decide (6 ≤ buf.length) then
        match scanBuffer addr buf with
        | some i => (frameSlice buf i).bind CIVMessage.from_bytes
        | none => readLoop addr buf rest
      else readLoop addr buf rest

/-- Read and parse a CI-V response from the given incoming byte stream. -/
def readResponse (addr : Nat) (stream : List Nat) : Option CIVMessage :=
  readLoop addr [] stream

theorem scanFrom_eq_some_iff (addr : Nat) (buf : List Nat) :
    ∀ k i j, scanFrom addr buf i k = some j ↔
      (i ≤ j ∧ j < i + k ∧ scanHit addr buf j = true ∧
        ∀ m, i ≤ m → m < j → scanHit addr buf m = false) := by
  intro k
  induction k with
  | zero => intro i j; simp [scanFrom]; omega
  | succ k ih =>
      intro i j
      rw [scanFrom]
      by_cases hh : scanHit addr buf i
      · rw [if_pos hh]
        constructor
        · rintro ⟨rfl⟩
          exact ⟨Nat.le_refl _, by omega, hh, fun m h1 h2 => absurd h1 (by omega)⟩
        · rintro ⟨h1, h2, h3, h4⟩
          rcases Nat.lt_or_ge i j with hij | hij
          · exact absurd (h4 i (Nat.le_refl _) hij) (by simp [hh])
          · have : i = j := by omega
            rw [this]
      · rw [if_neg hh]
        rw [ih (i + 1) j]
        constructor
        · rintro ⟨h1, h2, h3, h4⟩
          refine ⟨by omega, by omega, h3, ?_⟩
          intro m hm1 hm2
          rcases Nat.eq_or_lt_of_le hm1 with rfl | hlt
          · exact Bool.not_eq_true _ ▸ (by simpa using hh)
          · exact h4 m hlt hm2
        · rintro ⟨h1, h2, h3, h4⟩
          have hij : i ≠ j := by
            rintro rfl
            exact hh h3
          refine ⟨by omega, by omega, h3, fun m hm1 hm2 => h4 m (by omega) hm2⟩

theorem scanBuffer_some_bounds (addr : Nat) (buf : List Nat) (i : Nat)
    (h : scanBuffer addr buf = some i) :
    i + 5 < buf.length ∧ scanHit addr buf i = true ∧
      ∀ m, m < i → scanHit addr buf m = false := by
  rw [scanBuffer, scanFrom_eq_some_iff] at h
  obtain ⟨-, h2, h3, h4⟩ := h
  exact ⟨by omega, h3, fun m hm => h4 m (Nat.zero_le _) hm⟩

theorem scanHit_append (addr : Nat) (buf ext : List Nat) (i : Nat) (h : i + 3 < buf.length) :
    scanHit addr (buf ++ ext) i = scanHit addr buf i := by
  unfold scanHit
  rw [List.getElem?_append_left (by omega), List.getElem?_append_left (by omega),
    List.getElem?_append_left h]

theorem scanBuffer_append_of_some (addr : Nat) (buf ext : List Nat) (i : Nat)
    (h : scanBuffer addr buf = some i) : scanBuffer addr (buf ++ ext) = some i := by
  obtain ⟨hb, hh, hmin⟩ := scanBuffer_some_bounds addr buf i h
  rw [scanBuffer, scanFrom_eq_some_iff]
  refine ⟨Nat.zero_le _, ?_, ?_, ?_⟩
  · rw [List.length_append]
    omega
  · rw [scanHit_append addr buf ext i (by omega)]
    exact hh
  · intro m _ hm
    rw [scanHit_append addr buf ext m (by omega)]
    exact hmin m hm

theorem findIdx?_append_of_some {α : Type} (p : α → Bool) (l₁ l₂ : List α) (i : Nat)
    (h : l₁.findIdx? p = some i) : (l₁ ++ l₂).findIdx? p = some i := by
  induction l₁ generalizing i with
  | nil => simp [List.findIdx?] at h
  | cons a t ih =>
      rw [List.cons_append]
      rw [List.findIdx?_cons] at h ⊢
      by_cases hp : p a
      · simpa [hp] using h
      · simp only [hp, cond_false] at h ⊢
        simp only [List.findIdx?_succ] at h ⊢
        cases hmap : (t.findIdx? p) with
        | none => rw [hmap] at h; simp at h
        | some j =>
            rw [hmap] at h
            simp at h
            rw [ih j hmap]
            simpa using h

theorem findIdx?_isSome_of_mem {α : Type} (p : α → Bool) (l : List α) (a : α)
    (ha : a ∈ l) (hp : p a = true) : ∃ j, l.findIdx? p = some j := by
  induction l with
  | nil => cases ha
  | cons b t ih =>
      rw [List.findIdx?_cons]
      by_cases hb : p b
      · exact ⟨0, by simp [hb]⟩
      · rcases List.mem_cons.mp ha with rfl | hmem
        · exact absurd hp hb
        · obtain ⟨j, hj⟩ := ih hmem
          exact ⟨j + 1, by simp [hb, List.findIdx?_succ, hj]⟩

theorem findIdx?_lt_length {α : Type} (p : α → Bool) (l : List α) (j : Nat)
    (h : l.findIdx? p = some j) : j < l.length := by
  induction l generalizing j with
  | nil => simp [List.findIdx?] at h
  | cons a t ih =>
      rw [List.findIdx?_cons] at h
      by_cases hp : p a
      · simp [hp] at h
        simp [List.length_cons]
        omega
      · simp only [hp, cond_false, List.findIdx?_succ] at h
        cases hmap : (t.findIdx? p) with
        | none => rw [hmap] at h; simp at h
        | some j' =>
            rw [hmap] at h
            simp at h
            have := ih j' hmap
            simp [List.length_cons]
            omega

theorem indexFrom_exists (buf : List Nat) (i : Nat)
    (hlast : buf.getLast? = some CIV_EOM) (hi : i < buf.length) :
    ∃ e, indexFrom buf i = some e ∧ i ≤ e ∧ e < buf.length := by
  have hmem : CIV_EOM ∈ buf.drop i := by
    have hlen : buf.length - 1 < buf.length := by omega
    have : buf.getLast? = buf[buf.length - 1]? := by
      rw [List.getLast?_eq_getElem?]
    rw [this] at hlast
    have hdrop : (buf.drop i)[buf.length - 1 - i]? = buf[i + (buf.length - 1 - i)]? :=
      List.getElem?_drop buf i (buf.length - 1 - i)
    have harith : i + (buf.length - 1 - i) = buf.length - 1 := by omega
    rw [harith] at hdrop
    have : (buf.drop i)[buf.length - 1 - i]? = some CIV_EOM := by rw [hdrop, hlast]
    exact List.getElem?_mem this
  obtain ⟨j, hj⟩ := findIdx?_isSome_of_mem (fun b => b == CIV_EOM) (buf.drop i) CIV_EOM hmem
    (by simp)
  have hjlt : j < (buf.drop i).length := findIdx?_lt_length _ _ _ hj
  rw [List.length_drop] at hjlt
  exact ⟨j + i, by rw [indexFrom, hj]; rfl, by omega, by omega⟩

theorem frameSlice_append (buf ext : List Nat) (i : Nat)
    (hlast : buf.getLast? = some CIV_EOM) (hi : i < buf.length) :
    frameSlice (buf ++ ext) i = frameSlice buf i := by
  obtain ⟨e, he, hie, helt⟩ := indexFrom_exists buf i hlast hi
  have hdropapp : (buf ++ ext).drop i = buf.drop i ++ ext := by
    rw [List.drop_append_of_le_length (by omega)]
  have he' : indexFrom (buf ++ ext) i = some e := by
    rw [indexFrom] at he ⊢
    rw [hdropapp]
    cases hfi : (buf.drop i).findIdx? (fun b => b == CIV_EOM) with
    | none => rw [hfi] at he; simp at he
    | some j =>
        rw [hfi] at he
        rw [findIdx?_append_of_some _ _ _ _ hfi]
        exact he
  rw [frameSlice, frameSlice, he, he']
  show some (((buf ++ ext).drop i).take (e + 1 - i)) = some ((buf.drop i).take (e + 1 - i))
  rw [hdropapp, List.take_append_of_le_length (by rw [List.length_drop]; omega)]

theorem readLoop_eq_respond (addr : Nat) :
    ∀ (stream buffer : List Nat), stream ≠ [] → stream.getLast? = some CIV_EOM →
      6 ≤ buffer.length + stream.length →
      readLoop addr buffer stream = respond addr (buffer ++ stream) := by
  intro stream
  induction stream with
  | nil => intro buffer h; exact absurd rfl h
  | cons b rest ih =>
      intro buffer _ hlast hlen
      rw [readLoop]
      cases rest with
      | nil =>
          have hb : b = CIV_EOM := by
            simpa using hlast
          have hblen : 6 ≤ (buffer ++ [b]).length := by
            rw [List.length_append]
            simpa using hlen
          have hbuf5 : 5 ≤ buffer.length := by
            rw [List.length_append] at hblen
            simp at hblen
            omega
          rw [if_pos (by simp [hb]; omega)]
          rw [respond]
          cases hscan : scanBuffer addr (buffer ++ [b]) with
          | some i => rfl
          | none => rfl
      | cons r rs =>
          have hlast' : (r :: rs).getLast? = some CIV_EOM := by
            rwa [List.getLast?_cons_cons] at hlast
          have happ : buffer ++ b :: r :: rs = (buffer ++ [b]) ++ (r :: rs) := by
            simp
          by_cases hcond : (b == CIV_EOM && decide (6 ≤ (buffer ++ [b]).length)) = true
          · rw [if_pos hcond]
            cases hscan : scanBuffer addr (buffer ++ [b]) with
            | some i =>
                have hb : b = CIV_EOM := by
                  simp at hcond
                  exact hcond.1
                have hilt : i < (buffer ++ [b]).length :=
                  by have := (scanBuffer_some_bounds addr _ i hscan).1; omega
                have hbl : (buffer ++ [b]).getLast? = some CIV_EOM := by
                  rw [List.getLast?_concat, hb]
                have hfs := frameSlice_append (buffer ++ [b]) (r :: rs) i hbl hilt
                rw [happ, respond, scanBuffer_append_of_some addr _ (r :: rs) i hscan]
                show (frameSlice (buffer ++ [b]) i).bind CIVMessage.from_bytes
                    = (frameSlice ((buffer ++ [b]) ++ r :: rs) i).bind CIVMessage.from_bytes
                rw [hfs]
            | none =>
                rw [happ]
                exact ih (buffer ++ [b]) (by simp) hlast'
                  (by rw [List.length_append]; simp at hlen ⊢; omega)
          · rw [if_neg hcond]
            rw [happ]
            exact ih (buffer ++ [b]) (by simp) hlast'
              (by rw [List.length_append]; simp at hlen ⊢; omega)

theorem from_bytes_fields (l : List Nat) (m : CIVMessage)
    (h : CIVMessage.from_bytes l = some m) : 6 ≤ l.length ∧ m.source = l.getD 3 0 := by
  unfold CIVMessage.from_bytes at h
  by_cases h1 : l.length < 6
  · rw [if_pos h1] at h; cases h
  rw [if_neg h1] at h
  by_cases h2 : ¬ (l.getD 0 0 = CIV_PREAMBLE ∧ l.getD 1 0 = CIV_PREAMBLE)
  · rw [if_pos h2] at h; cases h
  rw [if_neg h2] at h
  by_cases h3 : l.getLast? ≠ some CIV_EOM
  · rw [if_pos h3] at h; cases h
  rw [if_neg h3] at h
  refine ⟨by omega, ?_⟩
  by_cases h4 : (l.drop 5).dropLast.length > 0 ∧ (l.getD 4 0 = READ_NAME ∨ l.getD 4 0 = SET_NAME)
  · simp only [if_pos h4] at h
    cases h
    rfl
  · simp only [if_neg h4] at h
    cases h
    rfl

/-- C4: for every receive buffer (incoming stream) that ends with a
terminator byte and holds at least six bytes, the transport reader behaves
exactly as the one-shot description respond: it returns the parse of the
slice at the first two-byte preamble position whose source-address byte
(offset 3) equals the configured radio address, cut at the first
terminator at or after it, and nothing (the timeout result) when no
position matches; moreover every message the reader ever returns carries
the radio address as its source, so the echo of the controller's own
outgoing frame, whose source byte is the controller address, is never
returned as long as the two configured addresses differ. -/
theorem transport_reader_spec (addr : Nat) (stream : List Nat)
    (hne : stream ≠ []) (hlast : stream.getLast? = some CIV_EOM) (hlen : 6 ≤ stream.length) :
    readResponse addr stream = respond addr stream ∧
    ∀ m, readResponse addr stream = some m → m.source = addr := by
  have heq := readLoop_eq_respond addr stream [] hne hlast (by simpa using hlen)
  rw [List.nil_append] at heq
  rw [readResponse]
  refine ⟨heq, ?_⟩
  intro m hm
  rw [heq] at hm
  unfold respond at hm
  cases hscan : scanBuffer addr stream with
  | none => rw [hscan] at hm; cases hm
  | some i =>
      rw [hscan] at hm
      have hm2 : (frameSlice stream i).bind CIVMessage.from_bytes = some m := hm
      cases hsl : frameSlice stream i with
      | none => rw [hsl] at hm2; cases hm2
      | some slice =>
          rw [hsl] at hm2
          have hmb : CIVMessage.from_bytes slice = some m := hm2
          obtain ⟨hlen6, hsrc⟩ := from_bytes_fields slice m hmb
          obtain ⟨hbound, hhit, -⟩ := scanBuffer_some_bounds addr stream i hscan
          obtain ⟨e, he, hslice⟩ : ∃ e, indexFrom stream i = some e ∧
              slice = (stream.drop i).take (e + 1 - i) := by
            rw [frameSlice] at hsl
            cases hidx : indexFrom stream i with
            | none => rw [hidx] at hsl; cases hsl
            | some e =>
                rw [hidx] at hsl
                refine ⟨e, rfl, ?_⟩
                cases hsl
                rfl
          have hlt : 3 < e + 1 - i := by
            have : slice.length ≤ e + 1 - i := by
              rw [hslice]
              exact le_trans (List.length_take_le _ _) (Nat.le_refl _)
            omega
          have haddr : stream[i + 3]? = some addr := by
            rw [scanHit] at hhit
            simp only [Bool.and_eq_true, beq_iff_eq] at hhit
            exact hhit.2
          have hsl3 : slice[3]? = some addr := by
            rw [hslice, List.getElem?_take, if_pos hlt, List.getElem?_drop, haddr]
          rw [hsrc, List.getD_eq_getElem?_getD, hsl3]
          rfl

theorem transport_reader_spec_witness :
    ([0xFE, 0xFE, 0x94, 0xE0, 0x03, 0xFD,
      0xFE, 0xFE, 0xE0, 0x94, 0x03, 0x00, 0x00, 0x20, 0x14, 0x00, 0xFD] : List Nat) ≠ [] ∧
    readResponse 0x94
        [0xFE, 0xFE, 0x94, 0xE0, 0x03, 0xFD,
         0xFE, 0xFE, 0xE0, 0x94, 0x03, 0x00, 0x00, 0x20, 0x14, 0x00, 0xFD]
      = respond 0x94
        [0xFE, 0xFE, 0x94, 0xE0, 0x03, 0xFD,
         0xFE, 0xFE, 0xE0, 0x94, 0x03, 0x00, 0x00, 0x20, 0x14, 0x00, 0xFD] :=
  ⟨by decide,
    (transport_reader_spec 0x94
      [0xFE, 0xFE, 0x94, 0xE0, 0x03, 0xFD,
       0xFE, 0xFE, 0xE0, 0x94, 0x03, 0x00, 0x00, 0x20, 0x14, 0x00, 0xFD]
      (by decide) (by decide) (by decide)).1⟩

/-! # Data models (models.py) -/

/-- Operating modes supported by the IC-7300. -/
inductive OperatingMode
  | LSB
  | USB
  | AM
  | CW
  | RTTY
  | FM
  | CW_R
  | RTTY_R
  | LSB_D
  | USB_D
  | AM_D
  | FM_D
deriving DecidableEq, Repr

/-- Numeric CI-V value of an operating mode. -/
def OperatingMode.val : OperatingMode → Nat
  | .LSB => 0x00
  | .USB => 0x01
  | .AM => 0x02
  | .CW => 0x03
  | .RTTY => 0x04
  | .FM => 0x05
  | .CW_R => 0x07
  | .RTTY_R => 0x08
  | .LSB_D => 0x80
  | .USB_D => 0x81
  | .AM_D => 0x82
  | .FM_D => 0x85

/-- The IntEnum constructor OperatingMode(value); a ValueError is none. -/
def OperatingMode.ofVal (n : Nat) : Option OperatingMode :=
  if n = 0x00 then some .LSB
  else if n = 0x01 then some .USB
  else if n = 0x02 then some .AM
  else if n = 0x03 then some .CW
  else if n = 0x04 then some .RTTY
  else if n = 0x05 then some .FM
  else if n = 0x07 then some .CW_R
  else if n = 0x08 then some .RTTY_R
  else if n = 0x80 then some .LSB_D
  else if n = 0x81 then some .USB_D
  else if n = 0x82 then some .AM_D
  else if n = 0x85 then some .FM_D
  else none

/-- Filter width settings. -/
inductive FilterWidth
  | FIL1
  | FIL2
  | FIL3
deriving DecidableEq, Repr

/-- Numeric CI-V value of a filter width. -/
def FilterWidth.val : FilterWidth → Nat
  | .FIL1 => 0x01
  | .FIL2 => 0x02
  | .FIL3 => 0x03

/-- The IntEnum constructor FilterWidth(value); a ValueError is none. -/
def FilterWidth.ofVal (n : Nat) : Option FilterWidth :=
  if n = 0x01 then some .FIL1
  else if n = 0x02 then some .FIL2
  else if n = 0x03 then some .FIL3
  else none

/-- Duplex and split settings. -/
inductive DuplexMode
  | SIMPLEX
  | SPLIT
deriving DecidableEq, Repr

/-- Tone mode settings. -/
inductive ToneMode
  | OFF
  | TONE
  | TSQL
  | DTCS
deriving DecidableEq, Repr

/-- Memory channel structure for the IC-7300.  The Python tone_frequency
float always carries one of the standard CTCSS values with a single
decimal digit, so it is modelled in tenths of Hz; the 88.5 default
becomes 885. -/
structure MemoryChannel where
  number : Nat
  name : String := ""
  rx_frequency : Nat := 14200000
  tx_frequency : Nat := 14200000
  mode : OperatingMode := .USB
  filter_width : FilterWidth := .FIL1
  duplex : DuplexMode := .SIMPLEX
  tone_mode : ToneMode := .OFF
  tone_frequency : Nat := 885
  dtcs_code : Nat := 23
  is_empty : Bool := true
  is_locked : Bool := false
  tuning_step : Nat := 100
  group : String := ""
  synced_with_radio : Bool := false
deriving DecidableEq, Repr

/-- MemoryChannel(number = n): the record a fresh or cleared slot holds. -/
def MemoryChannel.ofNumber (n : Nat) : MemoryChannel := { number := n }

/-- Memory group for organizing channels with sequential slot assignment. -/
structure MemoryGroup where
  id : String
  base_channel : Nat := 1
deriving DecidableEq, Repr

/-- Radio connection configuration. -/
structure RadioConfig where
  baud_rate : Nat := 19200
  civ_address : Nat := 0x94
  controller_address : Nat := 0xE0
deriving DecidableEq, Repr

/-- The default RadioConfig. -/
def defaultConfig : RadioConfig := {}

/-! # Channel transaction engine (civ_protocol.py, CIVProtocol) -/

/-- send_raw of write_memory_channel: the exchange succeeds when the
received buffer contains the OK byte 0xFB. -/
def sendRawOk (buf : List Nat) : Bool := buf.contains 0xFB

/-- Step 1 command: switch to VFO A (07 00). -/
def vfoCmd (cfg : RadioConfig) : List Nat :=
  [CIV_PREAMBLE, CIV_PREAMBLE, cfg.civ_address, cfg.controller_address, 0x07, 0x00, CIV_EOM]

/-- Step 2 command: set frequency (05 followed by 5 BCD bytes). -/
def freqCmd (cfg : RadioConfig) (ch : MemoryChannel) : List Nat :=
  [CIV_PREAMBLE, CIV_PREAMBLE, cfg.civ_address, cfg.controller_address, 0x05] ++
    freq_to_bcd ch.rx_frequency ++ [CIV_EOM]

/-- Step 3 command: set mode and filter (06). -/
def modeCmd (cfg : RadioConfig) (ch : MemoryChannel) : List Nat :=
  [CIV_PREAMBLE, CIV_PREAMBLE, cfg.civ_address, cfg.controller_address, 0x06,
    ch.mode.val, ch.filter_width.val, CIV_EOM]

/-- Two-digit BCD slot byte, ((n div 10) shl 4) or (n mod 10). -/
def chBcd (n : Nat) : Nat := ((n / 10) <<< 4) ||| (n % 10)

/-- Step 4 command: select the target memory slot (08). -/
def selectCmd (cfg : RadioConfig) (ch : MemoryChannel) : List Nat :=
  [CIV_PREAMBLE, CIV_PREAMBLE, cfg.civ_address, cfg.controller_address, 0x08,
    chBcd ch.number, CIV_EOM]

/-- Step 5 command: write the VFO into the selected slot (09, no payload). -/
def memWriteCmd (cfg : RadioConfig) : List Nat :=
  [CIV_PREAMBLE, CIV_PREAMBLE, cfg.civ_address, cfg.controller_address, 0x09, CIV_EOM]

/-- The five coarse commands of write_memory_channel in issue order. -/
def stepCmds (cfg : RadioConfig) (ch : MemoryChannel) : List (List Nat) :=
  [vfoCmd cfg, freqCmd cfg ch, modeCmd cfg ch, selectCmd cfg ch, memWriteCmd cfg]

/-- The 1A 00 record read command for a slot (high BCD byte always 0). -/
def recordReadCmd (cfg : RadioConfig) (channel : Nat) : List Nat :=
  [CIV_PREAMBLE, CIV_PREAMBLE, cfg.civ_address, cfg.controller_address,
    0x1A, 0x00, 0x00, chBcd channel, CIV_EOM]

/-- The scan of _write_memory_channel_data: find the first preamble whose
command byte (offset 4) is 0x1A and that has a terminator strictly after
the preamble start, and extract the bytes between offset 5 and that
terminator.  The last argument counts the remaining iterations of
range(len(response_part) - 6); a missing terminator makes the Python find
return -1, failing the end-index test, so the loop simply advances. -/
def findRecordPayloadFrom (part : List Nat) : Nat → Nat → Option (List Nat)
  | _, 0 => none
  | i, k + 1 =>
      if part[i]? == some CIV_PREAMBLE && part[i + 1]? == some CIV_PREAMBLE &&
          part[i + 4]? == some 0x1A then
        match indexFrom part i with
        | some e =>
            if i < e then some ((part.drop (i + 5)).take (e - (i + 5)))
            else findRecordPayloadFrom part (i + 1) k
        | none => findRecordPayloadFrom part (i + 1) k
      else findRecordPayloadFrom part (i + 1) k

/-- Find the 1A response payload in the post-echo part of the buffer. -/
def findRecordPayload (part : List Nat) : Option (List Nat) :=
  findRecordPayloadFrom part 0 (part.length - 6)

/-- name.encode ascii with errors replace (non-ascii becomes the question
mark 63), truncated to 10 bytes and left-justified with spaces. -/
def encodeName (s : String) : List Nat :=
  let t := (s.data.map (fun c => if c.toNat ≤ 127 then c.toNat else 63)).take 10
  t ++ List.replicate (10 - t.length) 32

/-- The read-patch-write phase _write_memory_channel_data, given the
received buffers of its two serial exchanges (index 0 the record read,
index 1 the record write).  Returns the reported success and the commands
sent.  Clearing bit 4 of the flags byte is the Python bitwise-and with the
complement of 0x10, which on naturals is subtraction of the extracted
bit. -/
def writeMemoryChannelData (cfg : RadioConfig) (oracle : Nat → List Nat)
    (channel : MemoryChannel) : Bool × List (List Nat) :=
  let read_cmd := recordReadCmd cfg channel.number
  let buffer := oracle 0
  match buffer.findIdx? (fun b => b == CIV_EOM) with
  | none => (false, [read_cmd])
  | some first_fd =>
      if first_fd + 1 ≥ buffer.length then (false, [read_cmd])
      else
        let response_part := buffer.drop (first_fd + 1)
        match findRecordPayload response_part with
        | none => (false, [read_cmd])
        | some payload =>
            if payload.length < 42 then (false, [read_cmd])
            else
              let b3 := payload.getD 3 0
              let p1 := if channel.duplex = DuplexMode.SPLIT
                then payload.set 3 (b3 ||| 0x10)
                else payload.set 3 (b3 - (b3 &&& 0x10))
              let p2 := p1.take 4 ++ freq_to_bcd channel.rx_frequency ++ p1.drop 9
              let p3 := p2.take 18 ++ freq_to_bcd channel.tx_frequency ++ p2.drop 23
              let p4 := p3.take (p3.length - 10) ++ encodeName channel.name
              let write_cmd := [CIV_PREAMBLE, CIV_PREAMBLE, cfg.civ_address,
                cfg.controller_address, 0x1A, 0x00] ++ p4.drop 1 ++ [CIV_EOM]
              (sendRawOk (oracle 1), [read_cmd, write_cmd])

/-- write_memory_channel: five coarse steps, each aborting the operation
immediately on failure, then the record read-patch-write phase whose
failure is only logged and never fails the operation.  The oracle maps the
k-th serial exchange of this operation to the received buffer; the second
component is the trace of commands sent. -/
def writeMemoryChannel (cfg : RadioConfig) (oracle : Nat → List Nat)
    (channel : MemoryChannel) : Bool × List (List Nat) :=
  if ¬ sendRawOk (oracle 0) then (false, [vfoCmd cfg])
  else if ¬ sendRawOk (oracle 1) then (false, [vfoCmd cfg, freqCmd cfg channel])
  else if ¬ sendRawOk (oracle 2) then
    (false, [vfoCmd cfg, freqCmd cfg channel, modeCmd cfg channel])
  else if ¬ sendRawOk (oracle 3) then
    (false, [vfoCmd cfg, freqCmd cfg channel, modeCmd cfg channel, selectCmd cfg channel])
  else if ¬ sendRawOk (oracle 4) then (false, stepCmds cfg channel)
  else
    (true, stepCmds cfg channel ++
      (writeMemoryChannelData cfg (fun k => oracle (5 + k)) channel).2)

/-- C6: write_memory_channel issues its five coarse steps in order, the
first failing step aborts the operation at once (the commands actually
sent are exactly the steps up to and including the failing one) and the
operation reports failure; when all five steps succeed the operation
reports success and then runs the record read-patch-write phase, whose
own outcome never changes the reported success. -/
theorem write_slot_step_gating (cfg : RadioConfig) (oracle : Nat → List Nat)
    (ch : MemoryChannel) :
    (∀ j, j < 5 → (∀ k, k < j → sendRawOk (oracle k) = true) →
      sendRawOk (oracle j) = false →
      writeMemoryChannel cfg oracle ch = (false, (stepCmds cfg ch).take (j + 1))) ∧
    ((∀ k, k < 5 → sendRawOk (oracle k) = true) →
      writeMemoryChannel cfg oracle ch =
        (true, stepCmds cfg ch ++
          (writeMemoryChannelData cfg (fun k => oracle (5 + k)) ch).2)) := by
  constructor
  · intro j hj hprev hfail
    interval_cases j
    · simp [writeMemoryChannel, hfail, stepCmds]
    · have h0 := hprev 0 (by omega)
      simp [writeMemoryChannel, h0, hfail, stepCmds]
    · have h0 := hprev 0 (by omega)
      have h1 := hprev 1 (by omega)
      simp [writeMemoryChannel, h0, h1, hfail, stepCmds]
    · have h0 := hprev 0 (by omega)
      have h1 := hprev 1 (by omega)
      have h2 := hprev 2 (by omega)
      simp [writeMemoryChannel, h0, h1, h2, hfail, stepCmds]
    · have h0 := hprev 0 (by omega)
      have h1 := hprev 1 (by omega)
      have h2 := hprev 2 (by omega)
      have h3 := hprev 3 (by omega)
      simp [writeMemoryChannel, h0, h1, h2, h3, hfail, stepCmds]
  · intro hall
    have h0 := hall 0 (by omega)
    have h1 := hall 1 (by omega)
    have h2 := hall 2 (by omega)
    have h3 := hall 3 (by omega)
    have h4 := hall 4 (by omega)
    simp [writeMemoryChannel, h0, h1, h2, h3, h4]

/-- A sample channel used to instantiate protocol-level theorems. -/
def chSample : MemoryChannel :=
  { number := 5, name := "TEST", rx_frequency := 7200000, tx_frequency := 7200000,
    is_empty := false }

theorem write_slot_step_gating_witness :
    writeMemoryChannel defaultConfig (fun _ => [0xFB]) chSample =
      (true, stepCmds defaultConfig chSample ++
        (writeMemoryChannelData defaultConfig (fun _ => [0xFB]) chSample).2) :=
  (write_slot_step_gating defaultConfig (fun _ => [0xFB]) chSample).2 (fun _ _ => rfl)

/-- bytes.decode ascii followed by strip of NUL and then of whitespace; a
non-ascii byte raises UnicodeDecodeError in Python, caught and turned
into the empty name. -/
def decodeName (bs : List Nat) : String :=
  if bs.all (fun b => b ≤ 127) then
    let cs := bs.map (fun b => Char.ofNat b)
    let noNul := ((cs.dropWhile (fun c => c = Char.ofNat 0)).reverse.dropWhile
      (fun c => c = Char.ofNat 0)).reverse
    let trimmed := ((noNul.dropWhile (fun c => c.isWhitespace)).reverse.dropWhile
      (fun c => c.isWhitespace)).reverse
    String.mk trimmed
  else ""

/-- The field decode of read_memory_channel applied to the 1A payload:
defensive mode and filter decode falling back to USB and the widest
filter, split flag from bit 4 of byte 3, BCD frequencies at offsets 4 and
18, and the trailing 10-byte name only when the payload is full length. -/
def parseChannelPayload (payload : List Nat) (channel : Nat) : Option MemoryChannel :=
  if payload.length < 32 then none
  else
    let split_byte := payload.getD 3 0
    let rx_frequency := bcd_to_freq ((payload.drop 4).take 5)
    let tx_frequency := bcd_to_freq ((payload.drop 18).take 5)
    let mode_byte := payload.getD 9 0
    let filter_byte := if payload.length > 10 then payload.getD 10 0 else 0x01
    let mode := (OperatingMode.ofVal mode_byte).getD OperatingMode.USB
    let filter_width := (FilterWidth.ofVal filter_byte).getD FilterWidth.FIL1
    let duplex := if split_byte &&& 0x10 ≠ 0 then DuplexMode.SPLIT else DuplexMode.SIMPLEX
    let name := if payload.length ≥ 42 then decodeName (payload.drop (payload.length - 10))
      else ""
    some { number := channel, name := name, rx_frequency := rx_frequency,
           tx_frequency := tx_frequency, mode := mode, filter_width := filter_width,
           duplex := duplex, is_empty := false }

/-- The scan loop of read_memory_channel over the post-echo part: at a
preamble, a command byte 0xFA (device negative acknowledgement) returns
none at once, a command byte 0x1A with a terminator strictly after the
preamble start is parsed and returned, anything else advances the scan.
The last argument counts the remaining iterations of
range(len(response_part) - 6). -/
def readChanLoop (part : List Nat) (channel : Nat) : Nat → Nat → Option MemoryChannel
  | _, 0 => none
  | i, k + 1 =>
      if part[i]? == some CIV_PREAMBLE && part[i + 1]? == some CIV_PREAMBLE then
        let cmd_byte := part.getD (i + 4) 0
        if cmd_byte = 0xFA then none
        else
          match indexFrom part i with
          | some e =>
              if cmd_byte = 0x1A ∧ i < e then
                parseChannelPayload ((part.drop (i + 5)).take (e - (i + 5))) channel
              else readChanLoop part channel (i + 1) k
          | none => readChanLoop part channel (i + 1) k
      else readChanLoop part channel (i + 1) k

/-- read_memory_channel from the point where the response buffer has been
received: locate the first terminator (end of the echoed command), then
scan the remainder for the device reply.  none uniformly covers the
timeout (empty buffer), a malformed reply and the negative
acknowledgement. -/
def readMemoryChannel (buffer : List Nat) (channel : Nat) : Option MemoryChannel :=
  match buffer.findIdx? (fun b => b == CIV_EOM) with
  | none => none
  | some first_fd =>
      if first_fd + 1 ≥ buffer.length then none
      else
        let response_part := buffer.drop (first_fd + 1)
        readChanLoop response_part channel 0 (response_part.length - 6)

/-- C8 counterexample: a buffer holding the echoed read command followed
by a device negative-acknowledgement frame makes read_memory_channel
return none, and the timeout (an empty receive buffer) returns none as
well, so the two outcomes are one and the same value and the caller
cannot tell the empty slot from an operation failure. -/
theorem read_slot_nak_vs_timeout :
    readMemoryChannel (recordReadCmd defaultConfig 5 ++
        [0xFE, 0xFE, 0xE0, 0x94, 0xFA, 0xFD, 0x00]) 5 = none ∧
    readMemoryChannel [] 5 = none ∧
    readMemoryChannel (recordReadCmd defaultConfig 5 ++
        [0xFE, 0xFE, 0xE0, 0x94, 0xFA, 0xFD, 0x00]) 5 = readMemoryChannel [] 5 := by
  refine ⟨by decide, rfl, by decide⟩

/-- C8 amended: whenever the scan of the post-echo response part reaches a
preamble whose command byte is the device negative acknowledgement 0xFA,
the read returns none, the same value the caller receives for a slot that
could not be read at all (for example an empty buffer after a timeout);
the NAK is swallowed without an exception, but it is not distinguishable
from an operation failure in the returned value. -/
theorem read_slot_nak_empty (part : List Nat) (channel i k : Nat)
    (h1 : part[i]? = some CIV_PREAMBLE) (h2 : part[i + 1]? = some CIV_PREAMBLE)
    (h3 : part.getD (i + 4) 0 = 0xFA) :
    readChanLoop part channel i (k + 1) = none ∧ readMemoryChannel [] channel = none := by
  constructor
  · rw [readChanLoop]
    rw [if_pos (by simp [h1, h2])]
    rw [List.getD_eq_getElem?_getD] at h3
    simp [h3]
  · rfl

theorem read_slot_nak_empty_witness :
    readChanLoop [0xFE, 0xFE, 0xE0, 0x94, 0xFA, 0xFD, 0x00] 5 0 1 = none ∧
    readMemoryChannel [] 5 = none :=
  read_slot_nak_empty [0xFE, 0xFE, 0xE0, 0x94, 0xFA, 0xFD, 0x00] 5 0 0 rfl rfl rfl

/-! # Memory manager (memory_manager.py, MemoryManager) -/

/-- MAX_CHANNELS: the IC-7300 has 99 regular memory channels. -/
def MAX_CHANNELS : Nat := 99

/-- The in-memory state of MemoryManager: the channel dictionary (keys
0..99, always present, iterated in slot order) as a function, and the
group dictionary as an insertion-ordered list. -/
structure MgrState where
  channels : Nat → MemoryChannel
  groups : List MemoryGroup

/-- self.channels.values(): the dictionary is created with keys 0..99 and
only ever updated in place or rebuilt in the same key order, so iteration
yields the records of slots 0..99 in order. -/
def channelsList (st : MgrState) : List MemoryChannel :=
  (List.range (MAX_CHANNELS + 1)).map st.channels

/-- Stable insertion used to model the Python sorted with the slot-number
key. -/
def insertByNumber (ch : MemoryChannel) : List MemoryChannel → List MemoryChannel
  | [] => [ch]
  | c :: cs => if ch.number < c.number then ch :: c :: cs else c :: insertByNumber ch cs

/-- sorted(channels, key = channel.number); stable like the Python sort. -/
def sortByNumber (l : List MemoryChannel) : List MemoryChannel :=
  l.foldr insertByNumber []

/-- get_channels_by_group: all non-empty channels assigned to the group. -/
def getChannelsByGroup (st : MgrState) (group_id : String) : List MemoryChannel :=
  (channelsList st).filter (fun ch => !ch.is_empty && ch.group == group_id)

/-- The group ids in declaration order (the dictionary keys). -/
def groupIds (st : MgrState) : List String := st.groups.map MemoryGroup.id

/-- get_ungrouped_channels: non-empty channels whose group tag is empty
(falsy) or not among the declared groups. -/
def getUngroupedChannels (st : MgrState) : List MemoryChannel :=
  (channelsList st).filter
    (fun ch => !ch.is_empty && (ch.group == "" || !(groupIds st).contains ch.group))

/-- The per-group counter of get_group_ranges: a channel is counted for
its own group tag only when that tag is truthy and among the declared
groups. -/
def countInGroup (st : MgrState) (group_id : String) : Nat :=
  (channelsList st).countP
    (fun ch => !ch.is_empty && ch.group == group_id && ch.group != "" &&
      (groupIds st).contains ch.group)

/-- The ungrouped counter of get_group_ranges. -/
def ungroupedCount (st : MgrState) : Nat :=
  (channelsList st).countP
    (fun ch => !ch.is_empty && (ch.group == "" || !(groupIds st).contains ch.group))

/-- The max_end loop of _get_ungrouped_base: the highest end position
among groups that have at least one member. -/
def maxGroupEnd (st : MgrState) : Nat :=
  st.groups.foldl
    (fun max_end g =>
      let group_channels := getChannelsByGroup st g.id
      if group_channels ≠ [] then max max_end (g.base_channel + group_channels.length - 1)
      else max_end) 0

/-- _get_ungrouped_base: 1 when no groups exist; otherwise the next
multiple of 10 after the highest group end, except that a highest end of 0
also yields 1. -/
def getUngroupedBase (st : MgrState) : Nat :=
  if st.groups.isEmpty then 1
  else
    let max_end := maxGroupEnd st
    if max_end = 0 then 1 else (max_end / 10 + 1) * 10

/-- get_group_ranges: (name, base, count, end) for every group with at
least one counted member, in declaration order, followed by the synthetic
ungrouped entry when ungrouped channels exist. -/
def getGroupRanges (st : MgrState) : List (String × Nat × Nat × Nat) :=
  (st.groups.filterMap (fun g =>
    let count := countInGroup st g.id
    if count > 0 then some (g.id, g.base_channel, count, g.base_channel + count - 1)
    else none)) ++
  (if ungroupedCount st > 0 then
    [("_ungrouped", getUngroupedBase st, ungroupedCount st,
      getUngroupedBase st + ungroupedCount st - 1)]
   else [])

/-- sorted set intersection of the two slot ranges, as slot lists. -/
def overlapSlots (b1 e1 b2 e2 : Nat) : List Nat :=
  (List.range' b1 (e1 + 1 - b1)).filter (fun s => decide (b2 ≤ s) && decide (s ≤ e2))

/-- Display name of a range: the synthetic key prints as (ungrouped). -/
def displayName (name : String) : String :=
  if name == "_ungrouped" then "(ungrouped)" else name

/-- Python printing of the sorted overlap list. -/
def renderSlots (l : List Nat) : String :=
  let sep := ", "
  let openBracket := "["
  let closeBracket := "]"
  openBracket ++ String.intercalate sep (l.map toString) ++ closeBracket

/-- The error message of validate_no_overlaps, with the two display names
in single quotes and the intersecting slots. -/
def overlapMsg (d1 d2 : String) (slots : List Nat) : String :=
  let q := "\x27"
  q ++ d1 ++ q ++ " and " ++ q ++ d2 ++ q ++ " overlap at slots " ++ renderSlots slots

/-- Inner loop of validate_no_overlaps: compare one range against every
later range, reporting the first intersection. -/
def findOverlapInner (name1 : String) (r1 : Nat × Nat × Nat) :
    List (String × Nat × Nat × Nat) → Option (String × String × List Nat)
  | [] => none
  | (name2, r2) :: rest =>
      let overlap := overlapSlots r1.1 r1.2.2 r2.1 r2.2.2
      if overlap ≠ [] then some (displayName name1, displayName name2, overlap)
      else findOverlapInner name1 r1 rest

/-- Outer loop of validate_no_overlaps: the first overlapping pair in scan
order, if any. -/
def findOverlapPair : List (String × Nat × Nat × Nat) → Option (String × String × List Nat)
  | [] => none
  | (name1, r1) :: rest =>
      match findOverlapInner name1 r1 rest with
      | some res => some res
      | none => findOverlapPair rest

/-- validate_no_overlaps: valid flag and error message. -/
def validateNoOverlaps (st : MgrState) : Bool × String :=
  match findOverlapPair (getGroupRanges st) with
  | some (d1, d2, overlap) => (false, overlapMsg d1 d2 overlap)
  | none => (true, "")

/-- A device operation issued by the bulk upload. -/
inductive DevOp
  | clearOp (slot : Nat)
  | writeOp (ch : MemoryChannel)
  | vfoOp
deriving DecidableEq, Repr

/-- The fresh channel copy built for each write of upload_all_channels:
the target slot plus the copied fields; lock and sync flags take their
dataclass defaults. -/
def mkUploadCopy (ch : MemoryChannel) (target_slot : Nat) : MemoryChannel :=
  { number := target_slot, name := ch.name, rx_frequency := ch.rx_frequency,
    tx_frequency := ch.tx_frequency, mode := ch.mode, filter_width := ch.filter_width,
    duplex := ch.duplex, tone_mode := ch.tone_mode, tone_frequency := ch.tone_frequency,
    dtcs_code := ch.dtcs_code, tuning_step := ch.tuning_step, is_empty := false,
    group := ch.group }

/-- Targets and copies for one block of channels placed at consecutive
slots from a base (the enumerate loops of the upload and of the
reorganization). -/
def assignList (target : Nat) : List MemoryChannel → List (Nat × MemoryChannel)
  | [] => []
  | ch :: rest => (target, mkUploadCopy ch target) :: assignList (target + 1) rest

/-- One write loop of upload_all_channels: write the block at consecutive
slots, counting successes and failures and recording the operations. -/
def writeFold (writeOk : MemoryChannel → Bool) :
    Nat → Nat × Nat × List DevOp → List MemoryChannel → Nat × Nat × List DevOp
  | _, acc, [] => acc
  | target, (success, failed, trace), ch :: rest =>
      let ch_copy := mkUploadCopy ch target
      let result := writeOk ch_copy
      writeFold writeOk (target + 1)
        (if result then success + 1 else success,
         if result then failed else failed + 1,
         trace ++ [DevOp.writeOp ch_copy]) rest

/-- Group-phase assignments of the reorganization, in declaration order,
each block enumerated from its group base. -/
def groupAssignments (st : MgrState) : List (Nat × MemoryChannel) :=
  st.groups.flatMap
    (fun g => assignList g.base_channel (sortByNumber (getChannelsByGroup st g.id)))

/-- Ungrouped-phase assignments of the reorganization. -/
def ungroupedAssignments (st : MgrState) : List (Nat × MemoryChannel) :=
  assignList (getUngroupedBase st) (sortByNumber (getUngroupedChannels st))

/-- One dictionary assignment new_channels[target] = copy, guarded by
target at most MAX_CHANNELS. -/
def storeAssign (m : Nat → MemoryChannel) (a : Nat × MemoryChannel) : Nat → MemoryChannel :=
  if a.1 ≤ MAX_CHANNELS then (fun i => if i = a.1 then a.2 else m i) else m

/-- _reorganize_channels_after_upload: rebuild the channel dictionary with
every slot empty, then place grouped channels at their target slots in
declaration order and the ungrouped block after them. -/
def reorganizeChannelsAfterUpload (st : MgrState) : MgrState :=
  { st with channels :=
      ((groupAssignments st ++ ungroupedAssignments st).foldl storeAssign
        MemoryChannel.ofNumber) }

/-- The two write loops of upload_all_channels: every group block in
declaration order starting at its base, then the ungrouped block at the
computed ungrouped base, threading the success and failure counters and
the operation trace. -/
def uploadWriteResult (writeOk : MemoryChannel → Bool) (st : MgrState) :
    Nat × Nat × List DevOp :=
  writeFold writeOk (getUngroupedBase st)
    (st.groups.foldl
      (fun acc g => writeFold writeOk g.base_channel acc
        (sortByNumber (getChannelsByGroup st g.id)))
      (0, 0, []))
    (sortByNumber (getUngroupedChannels st))

/-- upload_all_channels: validate and abort with (0, 0) and no device I/O
on overlap; otherwise clear slots 1..99, write every group block and then
the ungrouped block, switch back to VFO, and reorganize the store when at
least one write succeeded.  writeOk abstracts the per-write outcome of
write_memory_channel; clear results are ignored by the source. -/
def uploadAllChannels (writeOk : MemoryChannel → Bool) (st : MgrState) :
    (Nat × Nat) × List DevOp × MgrState :=
  let v := validateNoOverlaps st
  if !v.1 then ((0, 0), [], st)
  else
    let clears := (List.range' 1 MAX_CHANNELS).map DevOp.clearOp
    let finalRes := uploadWriteResult writeOk st
    let trace := clears ++ finalRes.2.2 ++ [DevOp.vfoOp]
    let st2 := if finalRes.1 > 0 then reorganizeChannelsAfterUpload st else st
    ((finalRes.1, finalRes.2.1), trace, st2)

/-- Count of non-empty channels in the store. -/
def nonEmptyCount (st : MgrState) : Nat :=
  (channelsList st).countP (fun ch => !ch.is_empty)

/-- Loop body of read_all_memory_channels: read each slot, collect the
non-none results and record the visited slot; no failure stops the loop. -/
def readAllGo (slotBuffers : Nat → List Nat) :
    List Nat → List MemoryChannel × List Nat → List MemoryChannel × List Nat
  | [], acc => acc
  | i :: rest, (channels, visited) =>
      match readMemoryChannel (slotBuffers i) i with
      | some ch => readAllGo slotBuffers rest (channels ++ [ch], visited ++ [i])
      | none => readAllGo slotBuffers rest (channels, visited ++ [i])

/-- read_all_memory_channels over slots start..fin, range(start, end + 1),
given the per-slot receive buffers; also returns the visited slots. -/
def readAllMemoryChannels (slotBuffers : Nat → List Nat) (start fin : Nat) :
    List MemoryChannel × List Nat :=
  readAllGo slotBuffers (List.range' start (fin + 1 - start)) ([], [])

/-- The group id used by the concrete example stores. -/
def gidG : String := "G"

/-- Store with one group based at slot 0 holding a single member at slot 0
plus one ungrouped channel: its highest member end-slot is 0. -/
def stBaseZero : MgrState :=
  { channels := fun i =>
      if i = 0 then { number := 0, is_empty := false, group := "G" }
      else if i = 1 then { number := 1, is_empty := false }
      else MemoryChannel.ofNumber i,
    groups := [{ id := "G", base_channel := 0 }] }

/-- C5 counterexample: in a store where a group has a member and the
highest end-slot among member-bearing groups is 0, the ungrouped base is
1, not the smallest multiple of 10 strictly above the highest end-slot
(which would be 10); the code treats the highest-end-0 case like the
no-members case. -/
theorem ungrouped_base_zero_end_counterexample :
    getChannelsByGroup stBaseZero gidG ≠ [] ∧
    getUngroupedChannels stBaseZero ≠ [] ∧
    maxGroupEnd stBaseZero = 0 ∧
    getUngroupedBase stBaseZero = 1 ∧
    getUngroupedBase stBaseZero ≠ 10 := by
  refine ⟨by decide, by decide, by decide, by decide, by decide⟩

/-- C5 amended: when the highest end-slot among groups with at least one
non-empty member is positive, the ungrouped base is the smallest multiple
of 10 strictly greater than it; when no group has a member or the highest
end-slot is 0, the ungrouped base is 1. -/
theorem ungrouped_base_spec (st : MgrState) :
    (maxGroupEnd st = 0 → getUngroupedBase st = 1) ∧
    (0 < maxGroupEnd st →
      getUngroupedBase st % 10 = 0 ∧ maxGroupEnd st < getUngroupedBase st ∧
      ∀ m, m % 10 = 0 → maxGroupEnd st < m → getUngroupedBase st ≤ m) := by
  constructor
  · intro h
    rw [getUngroupedBase]
    by_cases hg : st.groups.isEmpty
    · rw [if_pos hg]
    · rw [if_neg hg]
      show (if maxGroupEnd st = 0 then 1 else (maxGroupEnd st / 10 + 1) * 10) = 1
      rw [if_pos h]
  · intro h
    have hg : ¬ st.groups.isEmpty := by
      intro hg
      have hz : maxGroupEnd st = 0 := by
        rw [maxGroupEnd]
        rcases hgs : st.groups with _ | ⟨g, gs⟩
        · rfl
        · rw [hgs] at hg; simp [List.isEmpty] at hg
      omega
    have hb : getUngroupedBase st = (maxGroupEnd st / 10 + 1) * 10 := by
      rw [getUngroupedBase, if_neg hg]
      show (if maxGroupEnd st = 0 then 1 else (maxGroupEnd st / 10 + 1) * 10) = _
      rw [if_neg (by omega)]
    rw [hb]
    refine ⟨by omega, by omega, ?_⟩
    intro m hm hlt
    omega

/-- Store matching the concrete example of the spec: one group of five
members based at slot 1 and three ungrouped channels. -/
def stExample : MgrState :=
  { channels := fun i =>
      if 20 ≤ i ∧ i ≤ 24 then { number := i, is_empty := false, group := "G" }
      else if 30 ≤ i ∧ i ≤ 32 then { number := i, is_empty := false }
      else MemoryChannel.ofNumber i,
    groups := [{ id := "G", base_channel := 1 }] }

theorem ungrouped_base_spec_witness :
    0 < maxGroupEnd stExample ∧
    maxGroupEnd stExample = 5 ∧
    getUngroupedBase stExample % 10 = 0 ∧
    maxGroupEnd stExample < getUngroupedBase stExample ∧
    getUngroupedBase stExample = 10 ∧
    getGroupRanges stExample = [(gidG, 1, 5, 5), ("_ungrouped", 10, 3, 12)] :=
  ⟨by decide, by decide,
    ((ungrouped_base_spec stExample).2 (by decide)).1,
    ((ungrouped_base_spec stExample).2 (by decide)).2.1,
    by decide, by decide⟩

theorem findOverlapInner_none (name1 : String) (r1 : Nat × Nat × Nat) :
    ∀ rest, findOverlapInner name1 r1 rest = none →
      ∀ k n2 r2, rest.get? k = some (n2, r2) →
        overlapSlots r1.1 r1.2.2 r2.1 r2.2.2 = [] := by
  intro rest
  induction rest with
  | nil => intro _ k n2 r2 hk; simp at hk
  | cons p rest ih =>
      obtain ⟨m2, s2⟩ := p
      intro h k n2 r2 hk
      rw [findOverlapInner] at h
      by_cases hov : overlapSlots r1.1 r1.2.2 s2.1 s2.2.2 ≠ []
      · rw [if_pos hov] at h; cases h
      · rw [if_neg hov] at h
        cases k with
        | zero =>
            simp at hk
            obtain ⟨rfl, rfl⟩ := hk
            exact Classical.byContradiction (fun hc => hov hc)
        | succ k => exact ih h k n2 r2 (by simpa using hk)

theorem findOverlapPair_none :
    ∀ L, findOverlapPair L = none →
      ∀ i j n1 r1 n2 r2, i < j → L.get? i = some (n1, r1) → L.get? j = some (n2, r2) →
        overlapSlots r1.1 r1.2.2 r2.1 r2.2.2 = [] := by
  intro L
  induction L with
  | nil => intro _ i j n1 r1 n2 r2 _ hi; simp at hi
  | cons p rest ih =>
      obtain ⟨m1, s1⟩ := p
      intro h i j n1 r1 n2 r2 hij hi hj
      rw [findOverlapPair] at h
      cases hinner : findOverlapInner m1 s1 rest with
      | some res => rw [hinner] at h; cases h
      | none =>
          rw [hinner] at h
          cases i with
          | zero =>
              simp at hi
              obtain ⟨rfl, rfl⟩ := hi
              cases j with
              | zero => omega
              | succ j => exact findOverlapInner_none m1 s1 rest hinner j n2 r2 (by simpa using hj)
          | succ i =>
              cases j with
              | zero => omega
              | succ j =>
                  exact ih h i j n1 r1 n2 r2 (by omega) (by simpa using hi) (by simpa using hj)

theorem findOverlapInner_some (name1 : String) (r1 : Nat × Nat × Nat) :
    ∀ rest d1 d2 ov, findOverlapInner name1 r1 rest = some (d1, d2, ov) →
      d1 = displayName name1 ∧ ∃ k n2 r2, rest.get? k = some (n2, r2) ∧
        d2 = displayName n2 ∧ ov = overlapSlots r1.1 r1.2.2 r2.1 r2.2.2 ∧ ov ≠ [] := by
  intro rest
  induction rest with
  | nil => intro d1 d2 ov h; simp [findOverlapInner] at h
  | cons p rest ih =>
      obtain ⟨m2, s2⟩ := p
      intro d1 d2 ov h
      rw [findOverlapInner] at h
      by_cases hov : overlapSlots r1.1 r1.2.2 s2.1 s2.2.2 ≠ []
      · rw [if_pos hov] at h
        injection h with h
        injection h with h1 h
        injection h with h2 h3
        subst h1
        subst h2
        subst h3
        exact ⟨rfl, 0, m2, s2, rfl, rfl, rfl, hov⟩
      · rw [if_neg hov] at h
        obtain ⟨hd1, k, n2, r2, hk, hd2, hoveq, hovne⟩ := ih d1 d2 ov h
        exact ⟨hd1, k + 1, n2, r2, by simpa using hk, hd2, hoveq, hovne⟩

theorem findOverlapPair_some :
    ∀ L d1 d2 ov, findOverlapPair L = some (d1, d2, ov) →
      ∃ i j n1 r1 n2 r2, i < j ∧ L.get? i = some (n1, r1) ∧ L.get? j = some (n2, r2) ∧
        d1 = displayName n1 ∧ d2 = displayName n2 ∧
        ov = overlapSlots r1.1 r1.2.2 r2.1 r2.2.2 ∧ ov ≠ [] := by
  intro L
  induction L with
  | nil => intro d1 d2 ov h; simp [findOverlapPair] at h
  | cons p rest ih =>
      obtain ⟨m1, s1⟩ := p
      intro d1 d2 ov h
      rw [findOverlapPair] at h
      cases hinner : findOverlapInner m1 s1 rest with
      | some res =>
          rw [hinner] at h
          injection h with h
          subst h
          obtain ⟨hd1, k, n2, r2, hk, hd2, hoveq, hovne⟩ :=
            findOverlapInner_some m1 s1 rest d1 d2 ov hinner
          exact ⟨0, k + 1, m1, s1, n2, r2, by omega, by simp, by simpa using hk,
            hd1, hd2, hoveq, hovne⟩
      | none =>
          rw [hinner] at h
          obtain ⟨i, j, n1, r1, n2, r2, hij, hi, hj, hd1, hd2, hoveq, hovne⟩ := ih d1 d2 ov h
          exact ⟨i + 1, j + 1, n1, r1, n2, r2, by omega, by simpa using hi,
            by simpa using hj, hd1, hd2, hoveq, hovne⟩

/-- C1: whenever two computed ranges (two named groups, or a named group
and the synthetic ungrouped block) share a slot, validate_no_overlaps
returns false with a message built from the display names of an actually
overlapping pair and the sorted list of their shared slots, and
upload_all_channels returns (0, 0) having issued no device operation and
leaving the channel store untouched. -/
theorem allocation_overlap_rejected (st : MgrState) (writeOk : MemoryChannel → Bool)
    (i j : Nat) (n1 n2 : String) (r1 r2 : Nat × Nat × Nat)
    (hij : i < j)
    (h1 : (getGroupRanges st).get? i = some (n1, r1))
    (h2 : (getGroupRanges st).get? j = some (n2, r2))
    (hov : overlapSlots r1.1 r1.2.2 r2.1 r2.2.2 ≠ []) :
    (∃ i2 j2 m1 m2 s1 s2, i2 < j2 ∧
      (getGroupRanges st).get? i2 = some (m1, s1) ∧
      (getGroupRanges st).get? j2 = some (m2, s2) ∧
      overlapSlots s1.1 s1.2.2 s2.1 s2.2.2 ≠ [] ∧
      validateNoOverlaps st =
        (false, overlapMsg (displayName m1) (displayName m2)
          (overlapSlots s1.1 s1.2.2 s2.1 s2.2.2))) ∧
    uploadAllChannels writeOk st = ((0, 0), [], st) := by
  cases hp : findOverlapPair (getGroupRanges st) with
  | none => exact absurd (findOverlapPair_none _ hp i j n1 r1 n2 r2 hij h1 h2) hov
  | some res =>
      obtain ⟨d1, d2, ov⟩ := res
      obtain ⟨i2, j2, m1, s1, m2, s2, hij2, hi2, hj2, hd1, hd2, hoveq, hovne⟩ :=
        findOverlapPair_some _ d1 d2 ov hp
      have hval : validateNoOverlaps st =
          (false, overlapMsg (displayName m1) (displayName m2)
            (overlapSlots s1.1 s1.2.2 s2.1 s2.2.2)) := by
        unfold validateNoOverlaps
        rw [hp, hd1, hd2, hoveq]
      refine ⟨⟨i2, j2, m1, m2, s1, s2, hij2, hi2, hj2, hoveq ▸ hovne, hval⟩, ?_⟩
      have hv : (validateNoOverlaps st).1 = false := by rw [hval]
      simp [uploadAllChannels, hv]

/-- The two group ids used by the overlapping example store. -/
def gidA : String := "A"

/-- The second group id of the overlapping example store. -/
def gidB : String := "B"

/-- Store whose two groups compute ranges 1..3 and 3..3, overlapping at
slot 3. -/
def stOverlap : MgrState :=
  { channels := fun i =>
      if 10 ≤ i ∧ i ≤ 12 then { number := i, is_empty := false, group := "A" }
      else if i = 20 then { number := 20, is_empty := false, group := "B" }
      else MemoryChannel.ofNumber i,
    groups := [{ id := "A", base_channel := 1 }, { id := "B", base_channel := 3 }] }

theorem allocation_overlap_rejected_witness :
    uploadAllChannels (fun _ => true) stOverlap = ((0, 0), [], stOverlap) ∧
    (validateNoOverlaps stOverlap).1 = false :=
  ⟨(allocation_overlap_rejected stOverlap (fun _ => true) 0 1 gidA gidB
      (1, 3, 3) (3, 1, 3) (by omega) (by decide) (by decide) (by decide)).2,
    by decide⟩

theorem insertByNumber_length (ch : MemoryChannel) :
    ∀ l, (insertByNumber ch l).length = l.length + 1 := by
  intro l
  induction l with
  | nil => rfl
  | cons c cs ih =>
      rw [insertByNumber]
      by_cases h : ch.number < c.number
      · rw [if_pos h]; rfl
      · rw [if_neg h]
        simp [ih]

theorem sortByNumber_length (l : List MemoryChannel) : (sortByNumber l).length = l.length := by
  rw [sortByNumber]
  induction l with
  | nil => rfl
  | cons c cs ih =>
      rw [List.foldr_cons, insertByNumber_length, ih]
      rfl

theorem assignList_keys (l : List MemoryChannel) :
    ∀ t, (assignList t l).map Prod.fst = List.range' t l.length := by
  induction l with
  | nil => intro t; rfl
  | cons ch rest ih =>
      intro t
      rw [assignList, List.map_cons, ih (t + 1)]
      rfl

theorem assignList_get_split (l : List MemoryChannel) :
    ∀ i t ch, l.get? i = some ch →
      assignList t l = assignList t (l.take i) ++
        (t + i, mkUploadCopy ch (t + i)) :: assignList (t + i + 1) (l.drop (i + 1)) := by
  induction l with
  | nil => intro i t ch h; simp at h
  | cons c rest ih =>
      intro i t ch h
      cases i with
      | zero =>
          simp at h
          subst h
          simp [assignList]
      | succ i =>
          simp only [List.get?_cons_succ] at h
          rw [assignList, ih i (t + 1) ch h]
          have harith : t + 1 + i = t + (i + 1) := by omega
          simp only [harith, List.take_succ_cons, List.drop_succ_cons, assignList]
          rw [List.cons_append]

theorem writeFold_sum (writeOk : MemoryChannel → Bool) :
    ∀ (l : List MemoryChannel) (t s f : Nat) (tr : List DevOp),
      (writeFold writeOk t (s, f, tr) l).1 + (writeFold writeOk t (s, f, tr) l).2.1
        = s + f + l.length := by
  intro l
  induction l with
  | nil => intro t s f tr; rfl
  | cons ch rest ih =>
      intro t s f tr
      rw [writeFold]
      by_cases h : writeOk (mkUploadCopy ch t)
      · simp only [h, if_true]
        rw [ih]
        simp
        omega
      · simp only [h, if_false]
        rw [ih]
        simp
        omega

theorem writeFold_trace (writeOk : MemoryChannel → Bool) :
    ∀ (l : List MemoryChannel) (t s f : Nat) (tr : List DevOp),
      (writeFold writeOk t (s, f, tr) l).2.2
        = tr ++ (assignList t l).map (fun a => DevOp.writeOp a.2) := by
  intro l
  induction l with
  | nil => intro t s f tr; simp [writeFold, assignList]
  | cons ch rest ih =>
      intro t s f tr
      rw [writeFold]
      by_cases h : writeOk (mkUploadCopy ch t)
      · simp only [h, if_true]
        rw [ih]
        simp [assignList]
      · simp only [h, if_false]
        rw [ih]
        simp [assignList]

theorem groupsFold_sum (writeOk : MemoryChannel → Bool) (st : MgrState) :
    ∀ (gs : List MemoryGroup) (s f : Nat) (tr : List DevOp),
      (gs.foldl (fun acc g => writeFold writeOk g.base_channel acc
          (sortByNumber (getChannelsByGroup st g.id))) (s, f, tr)).1 +
        (gs.foldl (fun acc g => writeFold writeOk g.base_channel acc
          (sortByNumber (getChannelsByGroup st g.id))) (s, f, tr)).2.1
      = s + f + (gs.map (fun g => (getChannelsByGroup st g.id).length)).sum := by
  intro gs
  induction gs with
  | nil => intro s f tr; simp
  | cons g rest ih =>
      intro s f tr
      rw [List.foldl_cons, List.map_cons, List.sum_cons]
      have hw := writeFold_sum writeOk (sortByNumber (getChannelsByGroup st g.id))
        g.base_channel s f tr
      rcases hfr : writeFold writeOk g.base_channel (s, f, tr)
        (sortByNumber (getChannelsByGroup st g.id)) with ⟨s1, f1, tr1⟩
      rw [hfr] at hw
      rw [ih s1 f1 tr1]
      rw [sortByNumber_length] at hw
      simp at hw ⊢
      omega

theorem groupsFold_trace (writeOk : MemoryChannel → Bool) (st : MgrState) :
    ∀ (gs : List MemoryGroup) (s f : Nat) (tr : List DevOp),
      (gs.foldl (fun acc g => writeFold writeOk g.base_channel acc
          (sortByNumber (getChannelsByGroup st g.id))) (s, f, tr)).2.2
      = tr ++ (gs.flatMap (fun g =>
          assignList g.base_channel (sortByNumber (getChannelsByGroup st g.id)))).map
            (fun a => DevOp.writeOp a.2) := by
  intro gs
  induction gs with
  | nil => intro s f tr; simp
  | cons g rest ih =>
      intro s f tr
      rw [List.foldl_cons]
      have hw := writeFold_trace writeOk (sortByNumber (getChannelsByGroup st g.id))
        g.base_channel s f tr
      rcases hfr : writeFold writeOk g.base_channel (s, f, tr)
        (sortByNumber (getChannelsByGroup st g.id)) with ⟨s1, f1, tr1⟩
      rw [hfr] at hw
      rw [ih s1 f1 tr1]
      simp only at hw
      rw [hw, List.flatMap_cons, List.map_append, List.append_assoc]

theorem uploadWriteResult_sum (writeOk : MemoryChannel → Bool) (st : MgrState) :
    (uploadWriteResult writeOk st).1 + (uploadWriteResult writeOk st).2.1
      = (st.groups.map (fun g => (getChannelsByGroup st g.id).length)).sum +
        (getUngroupedChannels st).length := by
  rw [uploadWriteResult]
  have hg := groupsFold_sum writeOk st st.groups 0 0 []
  rcases hfr : st.groups.foldl (fun acc g => writeFold writeOk g.base_channel acc
      (sortByNumber (getChannelsByGroup st g.id))) (0, 0, []) with ⟨s1, f1, tr1⟩
  rw [hfr] at hg
  rw [hfr]
  have hw := writeFold_sum writeOk (sortByNumber (getUngroupedChannels st))
    (getUngroupedBase st) s1 f1 tr1
  rw [sortByNumber_length] at hw
  simp at hg hw ⊢
  omega

theorem uploadWriteResult_trace (writeOk : MemoryChannel → Bool) (st : MgrState) :
    (uploadWriteResult writeOk st).2.2
      = (groupAssignments st ++ ungroupedAssignments st).map (fun a => DevOp.writeOp a.2) := by
  rw [uploadWriteResult]
  have hg := groupsFold_trace writeOk st st.groups 0 0 []
  rcases hfr : st.groups.foldl (fun acc g => writeFold writeOk g.base_channel acc
      (sortByNumber (getChannelsByGroup st g.id))) (0, 0, []) with ⟨s1, f1, tr1⟩
  rw [hfr] at hg
  rw [hfr]
  have hw := writeFold_trace writeOk (sortByNumber (getUngroupedChannels st))
    (getUngroupedBase st) s1 f1 tr1
  simp only at hg hw
  rw [hw, hg]
  rw [groupAssignments, ungroupedAssignments, List.map_append, List.nil_append]

theorem uploadAllChannels_valid (writeOk : MemoryChannel → Bool) (st : MgrState)
    (hv : (validateNoOverlaps st).1 = true) :
    uploadAllChannels writeOk st =
      (((uploadWriteResult writeOk st).1, (uploadWriteResult writeOk st).2.1),
       (List.range' 1 MAX_CHANNELS).map DevOp.clearOp ++
         (uploadWriteResult writeOk st).2.2 ++ [DevOp.vfoOp],
       if (uploadWriteResult writeOk st).1 > 0 then reorganizeChannelsAfterUpload st
       else st) := by
  simp [uploadAllChannels, hv]

theorem uploadAllChannels_invalid (writeOk : MemoryChannel → Bool) (st : MgrState)
    (hv : (validateNoOverlaps st).1 = false) :
    uploadAllChannels writeOk st = ((0, 0), [], st) := by
  simp [uploadAllChannels, hv]

theorem countP_disjoint_or {α : Type} (p q : α → Bool) :
    ∀ l : List α, (∀ a ∈ l, ¬(p a = true ∧ q a = true)) →
      l.countP (fun a => p a || q a) = l.countP p + l.countP q := by
  intro l
  induction l with
  | nil => intro _; simp
  | cons a t ih =>
      intro hdisj
      rw [List.countP_cons, List.countP_cons, List.countP_cons,
        ih (fun b hb => hdisj b (List.mem_cons_of_mem a hb))]
      have := hdisj a (List.mem_cons_self a t)
      by_cases hp : p a
      · by_cases hq : q a
        · exact absurd ⟨hp, hq⟩ this
        · simp [hp, hq]; omega
      · by_cases hq : q a
        · simp [hp, hq]; omega
        · simp [hp, hq]

theorem partition_count :
    ∀ (gs : List MemoryGroup) (l : List MemoryChannel),
      (gs.map MemoryGroup.id).Nodup → "" ∉ gs.map MemoryGroup.id →
      (gs.map (fun g => l.countP (fun ch => !ch.is_empty && ch.group == g.id))).sum +
        l.countP (fun ch => !ch.is_empty &&
          (ch.group == "" || !(gs.map MemoryGroup.id).contains ch.group))
      = l.countP (fun ch => !ch.is_empty) := by
  intro gs
  induction gs with
  | nil =>
      intro l _ _
      simp only [List.map_nil, List.sum_nil, Nat.zero_add]
      apply List.countP_congr
      intro ch _
      simp
  | cons g rest ih =>
      intro l hnd hne
      have hnd' : (rest.map MemoryGroup.id).Nodup := by
        rw [List.map_cons] at hnd
        exact hnd.of_cons
      have hne' : "" ∉ rest.map MemoryGroup.id := by
        rw [List.map_cons] at hne
        exact fun h => hne (List.mem_cons_of_mem _ h)
      have hgid : g.id ∉ rest.map MemoryGroup.id := by
        rw [List.map_cons] at hnd
        exact (List.nodup_cons.mp hnd).1
      have hgne : g.id ≠ "" := by
        rw [List.map_cons] at hne
        intro h
        exact hne (h ▸ List.mem_cons_self _ _)
      -- decompose the rest-ungrouped count into the full-ungrouped count
      -- plus the members of g
      have hdec : l.countP (fun ch => !ch.is_empty &&
            (ch.group == "" || !(rest.map MemoryGroup.id).contains ch.group))
          = l.countP (fun ch => !ch.is_empty &&
              (ch.group == "" || !((g :: rest).map MemoryGroup.id).contains ch.group)) +
            l.countP (fun ch => !ch.is_empty && ch.group == g.id) := by
        have hcongr : l.countP (fun ch => !ch.is_empty &&
              (ch.group == "" || !(rest.map MemoryGroup.id).contains ch.group))
            = l.countP (fun ch =>
                (!ch.is_empty &&
                  (ch.group == "" || !((g :: rest).map MemoryGroup.id).contains ch.group)) ||
                (!ch.is_empty && ch.group == g.id)) := by
          apply List.countP_congr
          intro ch _
          by_cases he : ch.is_empty
          · simp [he]
          · by_cases hgg : ch.group = g.id
            · simp [he, hgg, hgid, hgne]
            · by_cases hz : ch.group = ""
              · simp [he, hgg, hz]
              · by_cases hc : ch.group ∈ rest.map MemoryGroup.id
                · simp [he, hgg, hz, hc]
                · simp [he, hgg, hz, hc]
        rw [hcongr]
        apply countP_disjoint_or
        intro ch _ hand
        obtain ⟨h1, h2⟩ := hand
        simp at h1 h2
        rcases h1.2 with hz | hnc
        · exact hgne (hz ▸ h2.2.symm) 
        · exact hnc.1 (h2.2 ▸ rfl)
      rw [List.map_cons, List.sum_cons]
      have := ih l hnd' hne'
      omega

theorem getChannelsByGroup_length (st : MgrState) (gid : String) :
    (getChannelsByGroup st gid).length
      = (channelsList st).countP (fun ch => !ch.is_empty && ch.group == gid) := by
  rw [getChannelsByGroup, List.countP_eq_length_filter]

theorem getUngroupedChannels_length (st : MgrState) :
    (getUngroupedChannels st).length = ungroupedCount st := by
  rw [getUngroupedChannels, ungroupedCount, List.countP_eq_length_filter]

theorem countInGroup_eq_length (st : MgrState) (gid : String)
    (hgne : gid ≠ "") (hmem : gid ∈ groupIds st) :
    countInGroup st gid = (getChannelsByGroup st gid).length := by
  rw [countInGroup, getChannelsByGroup_length]
  apply List.countP_congr
  intro ch _
  by_cases he : ch.is_empty
  · simp [he]
  · by_cases hg : ch.group = gid
    · simp [he, hg, hgne, hmem]
    · simp [he, hg]

theorem upload_total_eq_nonEmpty (st : MgrState)
    (hnd : (groupIds st).Nodup) (hne : "" ∉ groupIds st) :
    (st.groups.map (fun g => (getChannelsByGroup st g.id).length)).sum +
      (getUngroupedChannels st).length = nonEmptyCount st := by
  have hfun : (fun g : MemoryGroup => (getChannelsByGroup st g.id).length)
      = (fun g : MemoryGroup =>
          (channelsList st).countP (fun ch => !ch.is_empty && ch.group == g.id)) :=
    funext (fun g => getChannelsByGroup_length st g.id)
  rw [hfun, getUngroupedChannels, ← List.countP_eq_length_filter, nonEmptyCount]
  exact partition_count st.groups (channelsList st) hnd hne

theorem overlapSlots_nil_disjoint (b1 e1 b2 e2 : Nat)
    (h : overlapSlots b1 e1 b2 e2 = []) (s : Nat)
    (h1 : b1 ≤ s) (h2 : s ≤ e1) (h3 : b2 ≤ s) (h4 : s ≤ e2) : False := by
  rw [overlapSlots, List.filter_eq_nil_iff] at h
  have := h s (List.mem_range'_1.mpr ⟨h1, by omega⟩)
  simp at this
  omega

theorem validate_true_pair_none (st : MgrState) (hv : (validateNoOverlaps st).1 = true) :
    findOverlapPair (getGroupRanges st) = none := by
  cases hp : findOverlapPair (getGroupRanges st) with
  | none => rfl
  | some res =>
      obtain ⟨d1, d2, ov⟩ := res
      have : validateNoOverlaps st = (false, overlapMsg d1 d2 ov) := by
        unfold validateNoOverlaps
        rw [hp]
      rw [this] at hv
      cases hv

theorem ranges_disjoint_of_validate (st : MgrState)
    (hv : (validateNoOverlaps st).1 = true)
    (a b : String × Nat × Nat × Nat)
    (ha : a ∈ getGroupRanges st) (hb : b ∈ getGroupRanges st) (hab : a ≠ b)
    (s : Nat) (h1 : a.2.1 ≤ s) (h2 : s ≤ a.2.2.2) (h3 : b.2.1 ≤ s) (h4 : s ≤ b.2.2.2) :
    False := by
  have hp := validate_true_pair_none st hv
  obtain ⟨i, hi⟩ := List.mem_iff_get?.mp ha
  obtain ⟨j, hj⟩ := List.mem_iff_get?.mp hb
  have hij : i ≠ j := by
    intro h
    rw [h, hj] at hi
    exact hab (Option.some_injective _ hi).symm
  obtain ⟨n1, r1⟩ := a
  obtain ⟨n2, r2⟩ := b
  rcases Nat.lt_or_ge i j with hlt | hge
  · exact overlapSlots_nil_disjoint r1.1 r1.2.2 r2.1 r2.2.2
      (findOverlapPair_none _ hp i j n1 r1 n2 r2 hlt hi hj) s h1 h2 h3 h4
  · have hlt : j < i := by omega
    exact overlapSlots_nil_disjoint r2.1 r2.2.2 r1.1 r1.2.2
      (findOverlapPair_none _ hp j i n2 r2 n1 r1 hlt hj hi) s h3 h4 h1 h2

theorem group_range_mem (st : MgrState) (g : MemoryGroup) (hg : g ∈ st.groups)
    (hc : 0 < countInGroup st g.id) :
    (g.id, g.base_channel, countInGroup st g.id,
      g.base_channel + countInGroup st g.id - 1) ∈ getGroupRanges st := by
  rw [getGroupRanges]
  apply List.mem_append_left
  apply List.mem_filterMap.mpr
  refine ⟨g, hg, ?_⟩
  simp only [if_pos hc]

theorem ungrouped_range_mem (st : MgrState) (hc : 0 < ungroupedCount st) :
    ("_ungrouped", getUngroupedBase st, ungroupedCount st,
      getUngroupedBase st + ungroupedCount st - 1) ∈ getGroupRanges st := by
  rw [getGroupRanges]
  apply List.mem_append_right
  rw [if_pos hc]
  exact List.mem_singleton.mpr rfl

theorem foldl_storeAssign_not_mem :
    ∀ (l : List (Nat × MemoryChannel)) (m : Nat → MemoryChannel) (t : Nat),
      t ∉ l.map Prod.fst → (l.foldl storeAssign m) t = m t := by
  intro l
  induction l with
  | nil => intro m t _; rfl
  | cons a rest ih =>
      intro m t ht
      rw [List.map_cons] at ht
      have h1 : t ≠ a.1 := fun h => ht (h ▸ List.mem_cons_self _ _)
      have h2 : t ∉ rest.map Prod.fst := fun h => ht (List.mem_cons_of_mem _ h)
      rw [List.foldl_cons, ih _ t h2, storeAssign]
      by_cases hle : a.1 ≤ MAX_CHANNELS
      · rw [if_pos hle]
        simp [h1]
      · rw [if_neg hle]

theorem foldl_storeAssign_hit (l1 l2 : List (Nat × MemoryChannel))
    (m : Nat → MemoryChannel) (t : Nat) (v : MemoryChannel)
    (hle : t ≤ MAX_CHANNELS) (ht : t ∉ l2.map Prod.fst) :
    ((l1 ++ (t, v) :: l2).foldl storeAssign m) t = v := by
  rw [List.foldl_append, List.foldl_cons, foldl_storeAssign_not_mem l2 _ t ht, storeAssign]
  rw [if_pos hle]
  simp

theorem readAllGo_visited (sb : Nat → List Nat) :
    ∀ (slots : List Nat) (acc : List MemoryChannel × List Nat),
      (readAllGo sb slots acc).2 = acc.2 ++ slots := by
  intro slots
  induction slots with
  | nil => intro acc; simp [readAllGo]
  | cons i rest ih =>
      intro acc
      obtain ⟨cs, vs⟩ := acc
      rw [readAllGo]
      cases readMemoryChannel (sb i) i with
      | some ch => rw [ih]; simp
      | none => rw [ih]; simp

/-- The target slot numbers of the write operations in a device trace. -/
def writeTargets (ops : List DevOp) : List Nat :=
  ops.filterMap (fun op => match op with
    | DevOp.writeOp ch => some ch.number
    | _ => none)

/-- Store with two singleton groups declared in the order B (base 20),
A (base 1): ranges do not overlap, so the upload proceeds. -/
def stOrder : MgrState :=
  { channels := fun i =>
      if i = 5 then { number := 5, is_empty := false, group := "B" }
      else if i = 7 then { number := 7, is_empty := false, group := "A" }
      else MemoryChannel.ofNumber i,
    groups := [{ id := "B", base_channel := 20 }, { id := "A", base_channel := 1 }] }

/-- C7 counterexample: groups are visited in declaration order, not by
base slot, so the bulk write of stOrder targets slot 20 before slot 1 and
the full sequence of write targets is not strictly ascending. -/
theorem bulk_write_order_counterexample :
    writeTargets (uploadAllChannels (fun _ => true) stOrder).2.1 = [20, 1] ∧
    ¬ List.Pairwise (· < ·)
        (writeTargets (uploadAllChannels (fun _ => true) stOrder).2.1) := by
  constructor
  · decide
  · intro h
    have h20 : (20 : Nat) < 1 := by
      have heq : writeTargets (uploadAllChannels (fun _ => true) stOrder).2.1 = [20, 1] := by
        decide
      rw [heq] at h
      exact List.rel_of_pairwise_cons h (List.mem_singleton.mpr rfl)
    omega

/-- C7 amended: under a store whose group ids are distinct and non-empty
and whose overlap validation succeeds, the bulk upload reports success and
failure counts summing to the number of non-empty channels, never aborts
(its trace is always the full clear sweep, one write per assigned channel
in group declaration order, and the final VFO switch), and the write
targets ascend strictly within each group block and within the ungrouped
block; the bulk read visits exactly the slots start..end in strictly
ascending order for every oracle, never aborting on a failed slot. -/
theorem bulk_loop_spec (st : MgrState) (writeOk : MemoryChannel → Bool)
    (slotBuffers : Nat → List Nat) (start fin : Nat)
    (hnd : (groupIds st).Nodup) (hne : "" ∉ groupIds st)
    (hv : (validateNoOverlaps st).1 = true) :
    ((uploadAllChannels writeOk st).1.1 + (uploadAllChannels writeOk st).1.2
        = nonEmptyCount st) ∧
    ((uploadAllChannels writeOk st).2.1 =
      (List.range' 1 MAX_CHANNELS).map DevOp.clearOp ++
        (groupAssignments st ++ ungroupedAssignments st).map (fun a => DevOp.writeOp a.2) ++
        [DevOp.vfoOp]) ∧
    (∀ g ∈ st.groups, List.Pairwise (· < ·)
      ((assignList g.base_channel (sortByNumber (getChannelsByGroup st g.id))).map
        Prod.fst)) ∧
    List.Pairwise (· < ·) ((ungroupedAssignments st).map Prod.fst) ∧
    (readAllMemoryChannels slotBuffers start fin).2 = List.range' start (fin + 1 - start) ∧
    List.Pairwise (· < ·) (readAllMemoryChannels slotBuffers start fin).2 := by
  have hup := uploadAllChannels_valid writeOk st hv
  have hvisited : (readAllMemoryChannels slotBuffers start fin).2
      = List.range' start (fin + 1 - start) := by
    rw [readAllMemoryChannels]
    rw [readAllGo_visited slotBuffers (List.range' start (fin + 1 - start)) ([], [])]
    simp
  refine ⟨?_, ?_, ?_, ?_, hvisited, ?_⟩
  · rw [hup]
    show (uploadWriteResult writeOk st).1 + (uploadWriteResult writeOk st).2.1 = _
    rw [uploadWriteResult_sum]
    exact upload_total_eq_nonEmpty st hnd hne
  · rw [hup]
    show (List.range' 1 MAX_CHANNELS).map DevOp.clearOp ++
        (uploadWriteResult writeOk st).2.2 ++ [DevOp.vfoOp] = _
    rw [uploadWriteResult_trace]
  · intro g _
    rw [assignList_keys]
    exact List.pairwise_lt_range' _ _
  · rw [ungroupedAssignments, assignList_keys]
    exact List.pairwise_lt_range' _ _
  · rw [hvisited]
    exact List.pairwise_lt_range' _ _

theorem bulk_loop_spec_witness :
    (uploadAllChannels (fun _ => true) stExample).1.1 +
      (uploadAllChannels (fun _ => true) stExample).1.2 = nonEmptyCount stExample ∧
    (readAllMemoryChannels (fun _ => []) 1 3).2 = List.range' 1 (3 + 1 - 1) :=
  ⟨(bulk_loop_spec stExample (fun _ => true) (fun _ => []) 1 3
      (by decide) (by decide) (by decide)).1,
    (bulk_loop_spec stExample (fun _ => true) (fun _ => []) 1 3
      (by decide) (by decide) (by decide)).2.2.2.2.1⟩

theorem group_block_keys (st : MgrState) (g : MemoryGroup)
    (hidmem : g.id ∈ groupIds st) (hgidne : g.id ≠ "") (t : Nat)
    (ht : t ∈ (assignList g.base_channel
      (sortByNumber (getChannelsByGroup st g.id))).map Prod.fst) :
    0 < countInGroup st g.id ∧ g.base_channel ≤ t ∧
      t ≤ g.base_channel + countInGroup st g.id - 1 := by
  rw [assignList_keys, sortByNumber_length,
    ← countInGroup_eq_length st g.id hgidne hidmem] at ht
  rw [List.mem_range'_1] at ht
  omega

theorem ungrouped_block_keys (st : MgrState) (t : Nat)
    (ht : t ∈ (ungroupedAssignments st).map Prod.fst) :
    0 < ungroupedCount st ∧ getUngroupedBase st ≤ t ∧
      t ≤ getUngroupedBase st + ungroupedCount st - 1 := by
  rw [ungroupedAssignments, assignList_keys, sortByNumber_length,
    getUngroupedChannels_length] at ht
  rw [List.mem_range'_1] at ht
  omega

theorem flatMap_key_origin (gs : List MemoryGroup)
    (f : MemoryGroup → List (Nat × MemoryChannel)) (t : Nat)
    (ht : t ∈ (gs.flatMap f).map Prod.fst) : ∃ g ∈ gs, t ∈ (f g).map Prod.fst := by
  obtain ⟨a, ha, rfl⟩ := List.mem_map.mp ht
  obtain ⟨g, hg, hag⟩ := List.mem_flatMap.mp ha
  exact ⟨g, hg, List.mem_map_of_mem _ hag⟩

theorem reorganize_group_slot (st : MgrState)
    (hnd : (groupIds st).Nodup) (hne : "" ∉ groupIds st)
    (hnu : "_ungrouped" ∉ groupIds st) (hv : (validateNoOverlaps st).1 = true)
    (g : MemoryGroup) (hg : g ∈ st.groups) (idx : Nat) (ch : MemoryChannel)
    (hch : (sortByNumber (getChannelsByGroup st g.id)).get? idx = some ch)
    (hle : g.base_channel + idx ≤ MAX_CHANNELS) :
    (reorganizeChannelsAfterUpload st).channels (g.base_channel + idx)
      = mkUploadCopy ch (g.base_channel + idx) := by
  have hidmem : g.id ∈ groupIds st := List.mem_map_of_mem _ hg
  have hgidne : g.id ≠ "" := fun h => hne (h ▸ hidmem)
  have hgidnu : g.id ≠ "_ungrouped" := fun h => hnu (h ▸ hidmem)
  obtain ⟨hlt, -⟩ := List.get?_eq_some.mp hch
  have hcount : countInGroup st g.id = (getChannelsByGroup st g.id).length :=
    countInGroup_eq_length st g.id hgidne hidmem
  have hlen : idx < countInGroup st g.id := by
    rw [hcount, ← sortByNumber_length]
    exact hlt
  have hcpos : 0 < countInGroup st g.id := by omega
  have hentry := group_range_mem st g hg hcpos
  obtain ⟨pre, post, hsplit⟩ := List.append_of_mem hg
  have hids : groupIds st = pre.map MemoryGroup.id ++ g.id :: post.map MemoryGroup.id := by
    rw [groupIds, hsplit, List.map_append, List.map_cons]
  have hnd2 := hnd
  rw [hids] at hnd2
  have hpost : g.id ∉ post.map MemoryGroup.id :=
    (List.nodup_cons.mp (List.nodup_append.mp hnd2).2.1).1
  have hgasgn : groupAssignments st =
      pre.flatMap (fun h => assignList h.base_channel
        (sortByNumber (getChannelsByGroup st h.id))) ++
      (assignList g.base_channel (sortByNumber (getChannelsByGroup st g.id)) ++
       post.flatMap (fun h => assignList h.base_channel
        (sortByNumber (getChannelsByGroup st h.id)))) := by
    rw [groupAssignments, hsplit, List.flatMap_append, List.flatMap_cons]
  have hself := assignList_get_split _ idx g.base_channel ch hch
  have hall : groupAssignments st ++ ungroupedAssignments st
      = (pre.flatMap (fun h => assignList h.base_channel
            (sortByNumber (getChannelsByGroup st h.id))) ++
          assignList g.base_channel
            ((sortByNumber (getChannelsByGroup st g.id)).take idx)) ++
        (g.base_channel + idx,
          mkUploadCopy ch (g.base_channel + idx)) ::
        (assignList (g.base_channel + idx + 1)
            ((sortByNumber (getChannelsByGroup st g.id)).drop (idx + 1)) ++
          (post.flatMap (fun h => assignList h.base_channel
            (sortByNumber (getChannelsByGroup st h.id))) ++
           ungroupedAssignments st)) := by
    rw [hgasgn, hself]
    simp [List.append_assoc]
  rw [reorganizeChannelsAfterUpload]
  show ((groupAssignments st ++ ungroupedAssignments st).foldl storeAssign
    MemoryChannel.ofNumber) (g.base_channel + idx) = _
  rw [hall]
  apply foldl_storeAssign_hit
  · exact hle
  · -- the target is not a key of anything written after it
    intro hmem
    rw [List.map_append] at hmem
    rcases List.mem_append.mp hmem with htail | hrest
    · -- later members of the same group block: keys strictly above the target
      rw [assignList_keys] at htail
      rw [List.mem_range'_1] at htail
      omega
    · rw [List.map_append] at hrest
      rcases List.mem_append.mp hrest with hpostk | hunk
      · -- a later group's block: contradicts range disjointness
        obtain ⟨g2, hg2, hg2k⟩ := flatMap_key_origin post _ _ hpostk
        have hg2mem : g2 ∈ st.groups := by
          rw [hsplit]
          exact List.mem_append_right _ (List.mem_cons_of_mem _ hg2)
        have hid2mem : g2.id ∈ groupIds st := List.mem_map_of_mem _ hg2mem
        have hid2ne : g2.id ≠ "" := fun h => hne (h ▸ hid2mem)
        obtain ⟨hc2, hb2, he2⟩ := group_block_keys st g2 hid2mem hid2ne _ hg2k
        have hentry2 := group_range_mem st g2 hg2mem hc2
        have hidne : g2.id ≠ g.id := by
          intro h
          exact hpost (h ▸ List.mem_map_of_mem _ hg2)
        exact ranges_disjoint_of_validate st hv _ _ hentry hentry2
          (by intro h; exact hidne (congrArg Prod.fst h).symm)
          (g.base_channel + idx)
          (by show g.base_channel ≤ g.base_channel + idx; omega)
          (by show g.base_channel + idx ≤ g.base_channel + countInGroup st g.id - 1; omega)
          hb2 he2
      · -- the ungrouped block: contradicts range disjointness
        obtain ⟨hcu, hbu, heu⟩ := ungrouped_block_keys st _ hunk
        have hentryu := ungrouped_range_mem st hcu
        exact ranges_disjoint_of_validate st hv _ _ hentry hentryu
          (by intro h; exact hgidnu (congrArg Prod.fst h))
          (g.base_channel + idx)
          (by show g.base_channel ≤ g.base_channel + idx; omega)
          (by show g.base_channel + idx ≤ g.base_channel + countInGroup st g.id - 1; omega)
          hbu heu

theorem reorganize_ungrouped_slot (st : MgrState) (idx : Nat) (ch : MemoryChannel)
    (hch : (sortByNumber (getUngroupedChannels st)).get? idx = some ch)
    (hle : getUngroupedBase st + idx ≤ MAX_CHANNELS) :
    (reorganizeChannelsAfterUpload st).channels (getUngroupedBase st + idx)
      = mkUploadCopy ch (getUngroupedBase st + idx) := by
  have hself := assignList_get_split _ idx (getUngroupedBase st) ch hch
  have hall : groupAssignments st ++ ungroupedAssignments st
      = (groupAssignments st ++
          assignList (getUngroupedBase st)
            ((sortByNumber (getUngroupedChannels st)).take idx)) ++
        (getUngroupedBase st + idx,
          mkUploadCopy ch (getUngroupedBase st + idx)) ::
        assignList (getUngroupedBase st + idx + 1)
          ((sortByNumber (getUngroupedChannels st)).drop (idx + 1)) := by
    rw [ungroupedAssignments, hself]
    simp [List.append_assoc]
  rw [reorganizeChannelsAfterUpload]
  show ((groupAssignments st ++ ungroupedAssignments st).foldl storeAssign
    MemoryChannel.ofNumber) (getUngroupedBase st + idx) = _
  rw [hall]
  apply foldl_storeAssign_hit
  · exact hle
  · intro hmem
    rw [assignList_keys, List.mem_range'_1] at hmem
    omega

theorem reorganize_untargeted_slot (st : MgrState)
    (hne : "" ∉ groupIds st) (slot : Nat)
    (hout : ∀ e ∈ getGroupRanges st, ¬(e.2.1 ≤ slot ∧ slot ≤ e.2.2.2)) :
    (reorganizeChannelsAfterUpload st).channels slot = MemoryChannel.ofNumber slot := by
  rw [reorganizeChannelsAfterUpload]
  show ((groupAssignments st ++ ungroupedAssignments st).foldl storeAssign
    MemoryChannel.ofNumber) slot = _
  apply foldl_storeAssign_not_mem
  intro hmem
  rw [List.map_append] at hmem
  rcases List.mem_append.mp hmem with hgk | hunk
  · obtain ⟨g, hg, hgk2⟩ := flatMap_key_origin st.groups _ _ hgk
    have hidmem : g.id ∈ groupIds st := List.mem_map_of_mem _ hg
    have hidne : g.id ≠ "" := fun h => hne (h ▸ hidmem)
    obtain ⟨hc, hb, hend⟩ := group_block_keys st g hidmem hidne _ hgk2
    exact hout _ (group_range_mem st g hg hc)
      ⟨by show g.base_channel ≤ slot; omega,
       by show slot ≤ g.base_channel + countInGroup st g.id - 1; omega⟩
  · obtain ⟨hc, hb, hend⟩ := ungrouped_block_keys st _ hunk
    exact hout _ (ungrouped_range_mem st hc)
      ⟨by show getUngroupedBase st ≤ slot; omega,
       by show slot ≤ getUngroupedBase st + ungroupedCount st - 1; omega⟩

/-- C9: after a bulk upload in which at least one slot succeeded, the
store is reorganized: for every group, target slot base + i (when within
0..99) holds a copy of the group's i-th member in previous-slot order with
its stored number equal to the target slot; the ungrouped block does the
same from the computed ungrouped base; and every slot not covered by any
computed range holds a fresh empty record.  The hypotheses on group ids
state the store well-formedness the dictionary and the group API maintain:
ids are unique, non-empty, and distinct from the synthetic range key. -/
theorem upload_reorganizes_store (st : MgrState) (writeOk : MemoryChannel → Bool)
    (hnd : (groupIds st).Nodup) (hne : "" ∉ groupIds st)
    (hnu : "_ungrouped" ∉ groupIds st)
    (hs : 0 < (uploadAllChannels writeOk st).1.1) :
    (∀ g ∈ st.groups, ∀ idx ch,
      (sortByNumber (getChannelsByGroup st g.id)).get? idx = some ch →
      g.base_channel + idx ≤ MAX_CHANNELS →
      (uploadAllChannels writeOk st).2.2.channels (g.base_channel + idx)
        = mkUploadCopy ch (g.base_channel + idx)) ∧
    (∀ idx ch, (sortByNumber (getUngroupedChannels st)).get? idx = some ch →
      getUngroupedBase st + idx ≤ MAX_CHANNELS →
      (uploadAllChannels writeOk st).2.2.channels (getUngroupedBase st + idx)
        = mkUploadCopy ch (getUngroupedBase st + idx)) ∧
    (∀ slot, (∀ e ∈ getGroupRanges st, ¬(e.2.1 ≤ slot ∧ slot ≤ e.2.2.2)) →
      (uploadAllChannels writeOk st).2.2.channels slot = MemoryChannel.ofNumber slot) := by
  have hv : (validateNoOverlaps st).1 = true := by
    cases hb : (validateNoOverlaps st).1 with
    | true => rfl
    | false =>
        rw [uploadAllChannels_invalid writeOk st hb] at hs
        simp at hs
  have hup := uploadAllChannels_valid writeOk st hv
  have hsr : 0 < (uploadWriteResult writeOk st).1 := by
    rw [hup] at hs
    exact hs
  have hst : (uploadAllChannels writeOk st).2.2 = reorganizeChannelsAfterUpload st := by
    rw [hup]
    show (if (uploadWriteResult writeOk st).1 > 0 then reorganizeChannelsAfterUpload st
      else st) = _
    rw [if_pos hsr]
  rw [hst]
  refine ⟨?_, ?_, ?_⟩
  · intro g hg idx ch hch hle
    exact reorganize_group_slot st hnd hne hnu hv g hg idx ch hch hle
  · intro idx ch hch hle
    exact reorganize_ungrouped_slot st idx ch hch hle
  · intro slot hout
    exact reorganize_untargeted_slot st hne slot hout

theorem upload_reorganizes_store_witness :
    (uploadAllChannels (fun _ => true) stExample).2.2.channels 1
      = mkUploadCopy (stExample.channels 20) 1 :=
  (upload_reorganizes_store stExample (fun _ => true)
      (by decide) (by decide) (by decide) (by decide)).1
    { id := "G", base_channel := 1 } (by decide) 0 (stExample.channels 20)
    (by decide) (by decide)
